import Mathlib

/-!
Shallow embedding of the Nearby-transit core: the GTFS clock/ETA engine and
arrival-group builder of src/src/App.jsx, the nearest-stops query, the CSV
readers of the batch scripts, the station-arrival index finalization, the
route-name maps, and the route-shape selector of
scripts/build_route_shapes.mjs.

Modelling conventions:
- JavaScript strings are modelled as lists of characters (`Str`); the
  strings handled by the claims are ASCII, where Lean code-point order and
  JS UTF-16 code-unit order agree.
- JavaScript numbers that arise from parsing feed fields are modelled as
  `Option` values (`none` models `NaN` from a missing or non-numeric
  field); every finite double is a rational, so numeric payloads are `ℚ`,
  except in trigonometric code (`distanceMeters`), where real numbers are
  used.
- `Array.prototype.sort` is modelled by the stable `List.mergeSort` on the
  comparator-derived boolean order; per the ECMAScript SortCompare clause a
  comparator result of NaN is coerced to +0, i.e. such pairs compare equal,
  which a stable sort leaves in encounter order.
- JS `Map` objects and plain objects used as dictionaries are modelled as
  association lists in insertion order (`mapGet` / `mapSet`).
-/

namespace NearbyTransit

/-- A JavaScript string: a list of characters. -/
abbrev Str := List Char

/-- Lexicographic comparison of JS strings (the order used by the default
comparator of a JS sort on strings, and by the relational comparison used in
the feature ordering of build_route_shapes.mjs). -/
def strLe : Str → Str → Bool
  | [], _ => true
  | _ :: _, [] => false
  | a :: as, b :: bs => if a < b then true else if b < a then false else strLe as bs

/-- Strict lexicographic comparison of JS strings. -/
def strLt : Str → Str → Bool
  | _, [] => false
  | [], _ :: _ => true
  | a :: as, b :: bs => if a < b then true else if b < a then false else strLt as bs

/-- JS String.prototype.trim: remove leading and trailing whitespace. -/
def jsTrim (s : Str) : Str :=
  ((s.dropWhile Char.isWhitespace).reverse.dropWhile Char.isWhitespace).reverse

/-- JS String.prototype.toUpperCase, character-wise (faithful on ASCII). -/
def jsToUpper (s : Str) : Str := s.map Char.toUpper

/-- Value of a list of decimal digit characters. -/
def digitsVal (ds : Str) : Nat := ds.foldl (fun n c => n * 10 + (c.toNat - 48)) 0

/-- JS parseInt(x, 10) restricted to the feed's fields: parse the leading
run of decimal digits; no digits at all gives NaN, modelled as `none`.
(The sign/whitespace tolerance of parseInt never arises on clock fields.) -/
def parseIntOpt (s : Str) : Option Nat :=
  let ds := s.takeWhile Char.isDigit
  if ds.isEmpty then none else some (digitsVal ds)

/-- Split a list of characters on a separator character, JS String.split
style: n separators yield n+1 (possibly empty) fields. -/
def splitOnChar (sep : Char) : Str → List Str
  | [] => [[]]
  | c :: rest =>
    let r := splitOnChar sep rest
    if c = sep then [] :: r
    else
      match r with
      | [] => [[c]]
      | f :: fs => (c :: f) :: fs

/-- Decimal representation of a natural number, as a JS string. -/
def natToStr (n : Nat) : Str := Nat.toDigits 10 n

/-- Decimal representation of an integer, as produced by JS template
interpolation of an integral number. -/
def intToStr (n : Int) : Str :=
  if n < 0 then '-' :: natToStr n.natAbs else natToStr n.toNat

/-! ### GTFS clock parsing and ETA (src/src/App.jsx, lines 40-71)

JS source:
  function timeToSecondsSinceMidnight(hms) \x7b
    const [h, m, s] = String(hms).split(":").map((x) => parseInt(x, 10));
    return h * 3600 + m * 60 + (s || 0);
  \x7d
A field that fails to parse gives NaN, which propagates through the sum;
`(s || 0)` replaces a NaN (or 0) seconds field by 0. The NaN outcome is
modelled as `none`. -/

/-- Seconds since midnight of the service day encoded by an HH:MM:SS clock
string (values of 24h and beyond allowed); `none` models the NaN produced
when the hours or minutes field is missing or non-numeric. -/
def timeToSecondsSinceMidnight (hms : Str) : Option Nat :=
  let parts := splitOnChar ':' hms
  match (parts.get? 0).bind parseIntOpt, (parts.get? 1).bind parseIntOpt with
  | some h, some m => some (h * 3600 + m * 60 + (((parts.get? 2).bind parseIntOpt).getD 0))
  | _, _ => none

/-- ETA in seconds of a GTFS clock string from wall-clock second `nowSec`
(src/src/App.jsx, etaSecondsFromGTFS). In the source `nowSec` is read from
the wall clock; it is a parameter here. `none` models the NaN produced by
an unparseable clock string. -/
def etaSecondsFromGTFS (timeStr : Str) (nowSec : Int) : Option Int :=
  (timeToSecondsSinceMidnight timeStr).map (fun tSecRaw =>
    let tSecNorm : Int := (tSecRaw : Int) % 86400
    let isNextDay : Bool := tSecRaw ≥ 86400
    if isNextDay then (tSecNorm + 86400) - nowSec
    else if tSecNorm < nowSec then (tSecNorm + 86400) - nowSec
    else tSecNorm - nowSec)

/-- Math.round(diffSec / 60) for an integral number of seconds: JS rounds
half away from zero toward positive infinity, i.e. floor(x + 1/2). For the
integer inputs that occur, the float division by 60 is exact whenever the
true quotient is a half-integer, so this integer form is faithful. -/
def jsRoundDiv60 (diffSec : Int) : Int := Int.fdiv (diffSec + 30) 60

/-- ETA label formatting (src/src/App.jsx, fmtEtaMinutes). -/
def fmtEtaMinutes (diffSec : Int) : Str :=
  let min := jsRoundDiv60 diffSec
  if min ≤ 0 then "Now".toList
  else if min = 1 then "1 min".toList
  else intToStr min ++ " min".toList

/-- The 90-minute display horizon (src/src/App.jsx, MAX_SHOW_MIN). -/
def MAX_SHOW_MIN : Int := 90

/-- The 20-minute soon window (src/src/App.jsx, SOON_WINDOW_MIN). -/
def SOON_WINDOW_MIN : Int := 20

/-- Claim C1: clock normalization. For every clock string with raw seconds
value raw = H*3600 + M*60 + S and every nowSec in [0, 86399],
etaSecondsFromGTFS returns (raw mod 86400) + 86400 - nowSec when
raw ≥ 86400; returns (raw mod 86400) + 86400 - nowSec when raw < 86400 and
raw mod 86400 < nowSec; and returns raw - nowSec otherwise. In particular
it returns 90600 for "25:10:00" at nowSec = 0, and 86340 for "07:59:00" at
nowSec = 28800, which exceeds the 90-minute display horizon. -/
theorem etaSecondsFromGTFS_normalization :
    (∀ (t : Str) (raw : Nat) (nowSec : Int),
      timeToSecondsSinceMidnight t = some raw →
      0 ≤ nowSec → nowSec ≤ 86399 →
      etaSecondsFromGTFS t nowSec = some
        (if raw ≥ 86400 then ((raw : Int) % 86400) + 86400 - nowSec
         else if ((raw : Int) % 86400) < nowSec then ((raw : Int) % 86400) + 86400 - nowSec
         else (raw : Int) - nowSec)) ∧
    etaSecondsFromGTFS "25:10:00".toList 0 = some 90600 ∧
    etaSecondsFromGTFS "07:59:00".toList 28800 = some 86340 ∧
    ¬ ((86340 : Int) ≤ MAX_SHOW_MIN * 60) := by
  refine ⟨?_, by decide, by decide, by decide⟩
  intro t raw nowSec hparse _h0 _h1
  simp only [etaSecondsFromGTFS, hparse, Option.map_some']
  by_cases hbig : raw ≥ 86400
  · simp [hbig, ge_iff_le, decide_eq_true_eq]
  · have hlt : raw < 86400 := by omega
    have hself : (raw : Int) % 86400 = (raw : Int) := by
      rw [Int.emod_eq_of_lt (by positivity) (by exact_mod_cast hlt)]
    simp [hbig, hself]

/-- Witness for C1 at the inputs named by the claim. -/
theorem etaSecondsFromGTFS_normalization_witness :
    etaSecondsFromGTFS "25:10:00".toList 0 = some
      (if (90600 : Nat) ≥ 86400 then (((90600 : Nat) : Int) % 86400) + 86400 - 0
       else if (((90600 : Nat) : Int) % 86400) < 0 then (((90600 : Nat) : Int) % 86400) + 86400 - 0
       else ((90600 : Nat) : Int) - 0) :=
  etaSecondsFromGTFS_normalization.1 "25:10:00".toList 90600 0 (by decide) (by decide) (by decide)

/-! ### ETA simulation and arrival groups (src/src/App.jsx, lines 76-84 and 280-334) -/

/-- Provenance of an arrival estimate. -/
inductive Source where
  | scheduled
  | estimated
deriving DecidableEq, Repr

/-- One arrival estimate as built by nextArrivals: the source clock string
(absent for synthesized estimates), the ETA in seconds, the display label,
and the provenance tag. -/
structure ArrivalEstimate where
  timeStr : Option Str
  etaSec : Int
  etaLabel : Str
  source : Source
deriving DecidableEq, Repr

/-- One arrival group per (line, headsign) key. -/
structure ArrivalGroup where
  line : Str
  headsign : Str
  upcoming : List ArrivalEstimate
deriving DecidableEq, Repr

/-- simulateEtas (src/src/App.jsx): count simulated minute values, each
max(1, base + i*step + noise_i), sorted ascending. In the source noise_i is
Math.floor(Math.random() * (jitter*2+1) - jitter), a fresh draw in
[-jitter, jitter] per entry; the random source is the parameter `noise`. -/
def simulateEtas (base count : Nat) (step : Nat) (noise : Nat → Int) : List Int :=
  ((List.range count).map (fun i => max 1 ((base : Int) + i * step + noise i))).mergeSort
    (fun a b => decide (a ≤ b))

/-- The filter stages of the scheduled-arrivals selection of nextArrivals
for one (station, line, headsign) key: pair each listed clock string with
its ETA (an unparseable string yields NaN, which both comparison filters
reject), then discard negative ETAs and ETAs beyond the 90-minute
horizon. -/
def schedCandidates (times : List Str) (nowSec : Int) : List (Str × Int) :=
  List.filter (fun x => decide (x.2 ≤ MAX_SHOW_MIN * 60))
    (List.filter (fun x => decide (0 ≤ x.2))
      (times.filterMap (fun t => (etaSecondsFromGTFS t nowSec).map (fun e => (t, e)))))

/-- The kept scheduled entries of nextArrivals for one key: the candidates
in the display window, sorted ascending by ETA, capped at 5, each labeled
scheduled and carrying its source clock string. -/
def upcomingScheduled (times : List Str) (nowSec : Int) : List ArrivalEstimate :=
  (((schedCandidates times nowSec).mergeSort (fun a b => decide (a.2 ≤ b.2))).take 5).map
    (fun x => ⟨some x.1, x.2, fmtEtaMinutes x.2, Source.scheduled⟩)

/-- hasSoon of nextArrivals: some kept scheduled entry is within the
20-minute soon window. -/
def hasSoon (times : List Str) (nowSec : Int) : Bool :=
  (upcomingScheduled times nowSec).any (fun u => decide (u.etaSec ≤ SOON_WINDOW_MIN * 60))

/-- The three synthesized estimates pushed when no scheduled entry is soon:
simulateEtas with base=6, count=3, jitter=2, step=6, each labeled
estimated with no clock string. -/
def simEntries (noise : Nat → Int) : List ArrivalEstimate :=
  (simulateEtas 6 3 6 noise).map (fun m => ⟨none, m * 60, intToStr m ++ " min".toList, Source.estimated⟩)

/-- The groups pushed for one (line, headsign) key by nextArrivals: when no
scheduled entry is soon, three synthesized estimates followed by the first
scheduled entry if one exists, capped at 4; otherwise, when the kept
scheduled list is nonempty, up to 4 of its entries. The group list is empty
only in the (unreachable) case of hasSoon with no kept entries. -/
def groupsForKey (line headsign : Str) (times : List Str) (nowSec : Int)
    (noise : Nat → Int) : List ArrivalGroup :=
  let sched := upcomingScheduled times nowSec
  if hasSoon times nowSec = false then
    [⟨jsToUpper line, headsign, (simEntries noise ++ sched.take 1).take 4⟩]
  else if sched.length ≠ 0 then
    [⟨jsToUpper line, headsign, sched.take 4⟩]
  else []

/-- The flat list of (line, headsign, times) keys of one station's data, in
the object-key iteration order of the two nested loops of nextArrivals. -/
def keyList (stationData : List (Str × List (Str × List Str))) :
    List (Str × Str × List Str) :=
  stationData.flatMap (fun p => p.2.map (fun q => (p.1, q.1, q.2)))

/-- Sort key of the final group ordering of nextArrivals:
a.upcoming[0]?.etaSec ?? 999999. -/
def etaHead (g : ArrivalGroup) : Int :=
  match g.upcoming.head? with
  | some u => u.etaSec
  | none => 999999

/-- nextArrivals for one station's data (src/src/App.jsx, lines 280-334):
one pass over the (line, headsign) keys building groups, then a sort by
each group's first ETA. The per-key random draws of the synthesis branch
are supplied by `noise`, indexed by the key's position. -/
def nextArrivals (stationData : List (Str × List (Str × List Str))) (nowSec : Int)
    (noise : Nat → Nat → Int) : List ArrivalGroup :=
  ((keyList stationData).enum.flatMap
      (fun p => groupsForKey p.2.1 p.2.2.1 p.2.2.2 nowSec (noise p.1))).mergeSort
    (fun a b => decide (etaHead a ≤ etaHead b))

/-- Number of listed clock strings whose ETA is in the display window
[0, 90 minutes]: the entries the selection keeps before the cap of 5. -/
def qualifyingCount (times : List Str) (nowSec : Int) : Nat :=
  times.countP (fun t =>
    match etaSecondsFromGTFS t nowSec with
    | some e => decide (0 ≤ e) && decide (e ≤ MAX_SHOW_MIN * 60)
    | none => false)

theorem pairEtaLe_trans (a b c : Str × Int) :
    decide (a.2 ≤ b.2) = true → decide (b.2 ≤ c.2) = true → decide (a.2 ≤ c.2) = true := by
  simp only [decide_eq_true_eq]
  omega

theorem pairEtaLe_total (a b : Str × Int) :
    (decide (a.2 ≤ b.2) || decide (b.2 ≤ a.2)) = true := by
  simp only [Bool.or_eq_true, decide_eq_true_eq]
  omega

/-- The kept scheduled entries are pairwise sorted ascending by ETA. -/
theorem upcomingScheduled_sorted (times : List Str) (nowSec : Int) :
    (upcomingScheduled times nowSec).Pairwise (fun a b => a.etaSec ≤ b.etaSec) := by
  unfold upcomingScheduled
  rw [List.pairwise_map]
  refine List.Pairwise.sublist (List.take_sublist 5 _) ?_
  have h := @List.sorted_mergeSort _ (fun (a b : Str × Int) => decide (a.2 ≤ b.2))
    pairEtaLe_trans pairEtaLe_total (schedCandidates times nowSec)
  exact h.imp (fun hab => by simpa using hab)

/-- Soundness of the kept scheduled entries: each is labeled scheduled,
lies in the display window, and is traceable to a listed clock string with
exactly its ETA and label. -/
theorem upcomingScheduled_sound (times : List Str) (nowSec : Int) :
    ∀ e ∈ upcomingScheduled times nowSec,
      e.source = Source.scheduled ∧ 0 ≤ e.etaSec ∧ e.etaSec ≤ MAX_SHOW_MIN * 60 ∧
      e.etaLabel = fmtEtaMinutes e.etaSec ∧
      ∃ t ∈ times, e.timeStr = some t ∧ etaSecondsFromGTFS t nowSec = some e.etaSec := by
  intro e he
  unfold upcomingScheduled at he
  rw [List.mem_map] at he
  obtain ⟨x, hx, rfl⟩ := he
  have hx1 : x ∈ schedCandidates times nowSec := by
    have := List.take_subset 5 _ hx
    exact (List.mergeSort_perm _ _).mem_iff.mp this
  unfold schedCandidates at hx1
  rw [List.mem_filter] at hx1
  obtain ⟨hx2, hhor⟩ := hx1
  rw [List.mem_filter] at hx2
  obtain ⟨hx3, hpos⟩ := hx2
  rw [List.mem_filterMap] at hx3
  obtain ⟨t, ht, heq⟩ := hx3
  cases hcase : etaSecondsFromGTFS t nowSec with
  | none => rw [hcase] at heq; simp at heq
  | some v =>
    rw [hcase] at heq
    simp only [Option.map_some', Option.some.injEq] at heq
    subst heq
    exact ⟨rfl, by simpa using hpos, by simpa using hhor, rfl, t, ht, rfl, by rw [hcase]⟩

/-- The kept scheduled list has the length of the qualifying set capped at 5. -/
theorem upcomingScheduled_length (times : List Str) (nowSec : Int) :
    (upcomingScheduled times nowSec).length = min (qualifyingCount times nowSec) 5 := by
  unfold upcomingScheduled schedCandidates qualifyingCount
  rw [List.length_map, List.length_take, List.length_mergeSort]
  rw [List.filter_filter, ← List.countP_eq_length_filter]
  rw [List.countP_filterMap]
  rw [Nat.min_comm]
  congr 1
  apply List.countP_congr
  intro t _
  cases h : etaSecondsFromGTFS t nowSec <;> simp [h, Bool.and_comm]

/-- hasSoon holds exactly when some kept entry is within the soon window. -/
theorem hasSoon_iff (times : List Str) (nowSec : Int) :
    hasSoon times nowSec = true ↔
      ∃ e ∈ upcomingScheduled times nowSec, e.etaSec ≤ SOON_WINDOW_MIN * 60 := by
  unfold hasSoon
  rw [List.any_eq_true]
  simp

/-- Claim C2: per-key scheduled selection. For every (station, line,
headsign) key, the estimator keeps exactly the listed clock strings whose
ETA is in [0, 5400] seconds (capped at 5 after sorting ascending by ETA),
sets hasSoon iff some kept entry has ETA at most 1200 seconds, and when
hasSoon holds emits one group holding at most 4 of the kept entries, each
labeled scheduled and carrying its source clock string. -/
theorem nextArrivals_scheduled_selection (times : List Str) (nowSec : Int) :
    (upcomingScheduled times nowSec).length = min (qualifyingCount times nowSec) 5 ∧
    (upcomingScheduled times nowSec).Pairwise (fun a b => a.etaSec ≤ b.etaSec) ∧
    (∀ e ∈ upcomingScheduled times nowSec,
      e.source = Source.scheduled ∧ 0 ≤ e.etaSec ∧ e.etaSec ≤ MAX_SHOW_MIN * 60 ∧
      ∃ t ∈ times, e.timeStr = some t ∧ etaSecondsFromGTFS t nowSec = some e.etaSec) ∧
    (hasSoon times nowSec = true ↔
      ∃ e ∈ upcomingScheduled times nowSec, e.etaSec ≤ SOON_WINDOW_MIN * 60) ∧
    (hasSoon times nowSec = true → ∀ line headsign noise,
      groupsForKey line headsign times nowSec noise =
        [⟨jsToUpper line, headsign, (upcomingScheduled times nowSec).take 4⟩]) := by
  refine ⟨upcomingScheduled_length times nowSec, upcomingScheduled_sorted times nowSec,
    ?_, hasSoon_iff times nowSec, ?_⟩
  · intro e he
    obtain ⟨h1, h2, h3, _h4, h5⟩ := upcomingScheduled_sound times nowSec e he
    exact ⟨h1, h2, h3, h5⟩
  · intro hsoon line headsign noise
    unfold groupsForKey
    rw [hsoon]
    have hne : (upcomingScheduled times nowSec).length ≠ 0 := by
      obtain ⟨e, he, _⟩ := (hasSoon_iff times nowSec).mp hsoon
      intro h
      rw [List.length_eq_zero] at h
      rw [h] at he
      exact (List.not_mem_nil e) he
    simp [hne]

unseal List.merge List.mergeSort in
/-- Witness for C2 at a concrete key: one clock string five minutes out at
08:00:00 wall time, which is soon, so the scheduled group is emitted. -/
theorem nextArrivals_scheduled_selection_witness :
    hasSoon ["08:05:00".toList] 28800 = true ∧
    groupsForKey "a".toList "Uptown".toList ["08:05:00".toList] 28800 (fun _ => 0) =
      [⟨jsToUpper "a".toList, "Uptown".toList,
        (upcomingScheduled ["08:05:00".toList] 28800).take 4⟩] :=
  ⟨by decide,
   (nextArrivals_scheduled_selection ["08:05:00".toList] 28800).2.2.2.2 (by decide)
     "a".toList "Uptown".toList (fun _ => 0)⟩

theorem intLe_trans (a b c : Int) :
    decide (a ≤ b) = true → decide (b ≤ c) = true → decide (a ≤ c) = true := by
  simp only [decide_eq_true_eq]
  omega

theorem intLe_total (a b : Int) : (decide (a ≤ b) || decide (b ≤ a)) = true := by
  simp only [Bool.or_eq_true, decide_eq_true_eq]
  omega

/-- simulateEtas always returns count entries. -/
theorem simulateEtas_length (base count step : Nat) (noise : Nat → Int) :
    (simulateEtas base count step noise).length = count := by
  unfold simulateEtas
  rw [List.length_mergeSort, List.length_map, List.length_range]

/-- Membership in the simulated minute list. -/
theorem simulateEtas_mem (base count step : Nat) (noise : Nat → Int) (m : Int) :
    m ∈ simulateEtas base count step noise ↔
      ∃ i < count, m = max 1 ((base : Int) + i * step + noise i) := by
  unfold simulateEtas
  rw [(List.mergeSort_perm _ _).mem_iff, List.mem_map]
  constructor
  · rintro ⟨i, hi, rfl⟩
    exact ⟨i, List.mem_range.mp hi, rfl⟩
  · rintro ⟨i, hi, rfl⟩
    exact ⟨i, List.mem_range.mpr hi, rfl⟩

/-- The simulated minute list is sorted ascending. -/
theorem simulateEtas_sorted (base count step : Nat) (noise : Nat → Int) :
    (simulateEtas base count step noise).Pairwise (fun a b => a ≤ b) := by
  have h := @List.sorted_mergeSort _ (fun (a b : Int) => decide (a ≤ b))
    intLe_trans intLe_total
    ((List.range count).map (fun i => max 1 ((base : Int) + i * step + noise i)))
  exact h.imp (fun hab => by simpa using hab)

/-- When hasSoon fails, every kept scheduled entry is beyond the soon
window. -/
theorem hasSoon_false_far (times : List Str) (nowSec : Int)
    (h : hasSoon times nowSec = false) :
    ∀ e ∈ upcomingScheduled times nowSec, SOON_WINDOW_MIN * 60 < e.etaSec := by
  intro e he
  unfold hasSoon at h
  rw [List.any_eq_false] at h
  have := h e he
  simp only [decide_eq_true_eq] at this
  omega

/-- Claim C3: synthesis fallback. When hasSoon fails for a key, the
simulation with base=6, count=3, jitter=2, step=6 (noise draws range over
[-2, 2]) returns exactly 3 minute values, each at least 1 and sorted
non-decreasing; the emitted group is these 3 estimated entries followed by
the single nearest kept scheduled entry when one exists, at most 4 entries
in total, and the combined upcoming list is ascending by ETA. -/
theorem nextArrivals_synthesis_fallback (line headsign : Str) (times : List Str)
    (nowSec : Int) (noise : Nat → Int)
    (hnoise : ∀ i, -2 ≤ noise i ∧ noise i ≤ 2)
    (hfar : hasSoon times nowSec = false) :
    (simulateEtas 6 3 6 noise).length = 3 ∧
    (∀ m ∈ simulateEtas 6 3 6 noise, 1 ≤ m) ∧
    (simulateEtas 6 3 6 noise).Pairwise (fun a b => a ≤ b) ∧
    groupsForKey line headsign times nowSec noise =
      [⟨jsToUpper line, headsign,
        simEntries noise ++ (upcomingScheduled times nowSec).take 1⟩] ∧
    (simEntries noise ++ (upcomingScheduled times nowSec).take 1).length ≤ 4 ∧
    (∀ e ∈ simEntries noise, e.source = Source.estimated ∧ e.timeStr = none) ∧
    (simEntries noise ++ (upcomingScheduled times nowSec).take 1).Pairwise
      (fun a b => a.etaSec ≤ b.etaSec) := by
  have hsimlen : (simulateEtas 6 3 6 noise).length = 3 := simulateEtas_length 6 3 6 noise
  have hentlen : (simEntries noise).length = 3 := by
    unfold simEntries
    rw [List.length_map, hsimlen]
  have hlen4 : (simEntries noise ++ (upcomingScheduled times nowSec).take 1).length ≤ 4 := by
    rw [List.length_append, hentlen, List.length_take]
    omega
  have hmle : ∀ m ∈ simulateEtas 6 3 6 noise, m ≤ 20 := by
    intro m hm
    obtain ⟨i, hi, rfl⟩ := (simulateEtas_mem 6 3 6 noise m).mp hm
    have h2 := (hnoise i).2
    have hicast : (i : Int) ≤ 2 := by exact_mod_cast Nat.le_of_lt_succ hi
    have : (6 : Int) + i * 6 + noise i ≤ 20 := by nlinarith
    omega
  refine ⟨hsimlen, ?_, simulateEtas_sorted 6 3 6 noise, ?_, hlen4, ?_, ?_⟩
  · intro m hm
    obtain ⟨i, _, rfl⟩ := (simulateEtas_mem 6 3 6 noise m).mp hm
    exact le_max_left 1 _
  · unfold groupsForKey
    rw [hfar]
    rw [if_pos rfl, List.take_of_length_le hlen4]
  · intro e he
    unfold simEntries at he
    rw [List.mem_map] at he
    obtain ⟨m, _, rfl⟩ := he
    exact ⟨rfl, rfl⟩
  · rw [List.pairwise_append]
    refine ⟨?_, ?_, ?_⟩
    · unfold simEntries
      rw [List.pairwise_map]
      exact (simulateEtas_sorted 6 3 6 noise).imp (fun h => by simpa using h)
    · cases h : upcomingScheduled times nowSec with
      | nil => simp
      | cons a tl => simp
    · intro a ha b hb
      unfold simEntries at ha
      rw [List.mem_map] at ha
      obtain ⟨m, hm, rfl⟩ := ha
      have hb' : b ∈ upcomingScheduled times nowSec := List.take_subset 1 _ hb
      have hfarb := hasSoon_false_far times nowSec hfar b hb'
      have := hmle m hm
      show m * 60 ≤ b.etaSec
      unfold SOON_WINDOW_MIN at hfarb
      omega

unseal List.merge List.mergeSort in
/-- Witness for C3: a key with a single distant clock string (13:00:00 as
of 08:00:00, ETA five hours), so hasSoon fails, with zero noise draws. -/
theorem nextArrivals_synthesis_fallback_witness :
    hasSoon ["13:00:00".toList] 28800 = false ∧
    groupsForKey "a".toList "Uptown".toList ["13:00:00".toList] 28800 (fun _ => 0) =
      [⟨jsToUpper "a".toList, "Uptown".toList,
        simEntries (fun _ => 0) ++ (upcomingScheduled ["13:00:00".toList] 28800).take 1⟩] :=
  ⟨by decide,
   (nextArrivals_synthesis_fallback "a".toList "Uptown".toList ["13:00:00".toList] 28800
     (fun _ => 0) (fun _ => ⟨by norm_num, by norm_num⟩) (by decide)).2.2.2.1⟩

/-- The three synthesized entries of the fallback branch. -/
theorem simEntries_length (noise : Nat → Int) : (simEntries noise).length = 3 := by
  unfold simEntries
  rw [List.length_map, simulateEtas_length]

/-- Every key yields exactly one group, whose upcoming list holds between
1 and 4 entries; the omit-empty-group case of the source is unreachable. -/
theorem groupsForKey_eq_singleton (line headsign : Str) (times : List Str) (nowSec : Int)
    (noise : Nat → Int) :
    ∃ g, groupsForKey line headsign times nowSec noise = [g] ∧
      1 ≤ g.upcoming.length ∧ g.upcoming.length ≤ 4 := by
  unfold groupsForKey
  by_cases h : hasSoon times nowSec = false
  · rw [if_pos h]
    refine ⟨_, rfl, ?_, ?_⟩ <;>
      simp only [List.length_take, List.length_append, simEntries_length] <;> omega
  · have h' : hasSoon times nowSec = true := by
      cases hv : hasSoon times nowSec with
      | false => exact absurd hv h
      | true => rfl
    have hne : (upcomingScheduled times nowSec).length ≠ 0 := by
      obtain ⟨e, he, _⟩ := (hasSoon_iff times nowSec).mp h'
      intro hz
      rw [List.length_eq_zero] at hz
      rw [hz] at he
      exact (List.not_mem_nil e) he
    rw [if_neg (by simp [h']), if_pos hne]
    refine ⟨_, rfl, ?_, ?_⟩ <;> simp only [List.length_take] <;> omega

/-- Claim C10: for every station's data, the group computation emits
exactly one group per stored (line, headsign) key, and every emitted
group's upcoming list holds between 1 and 4 entries; an empty group is
never produced. -/
theorem nextArrivals_totality (stationData : List (Str × List (Str × List Str)))
    (nowSec : Int) (noise : Nat → Nat → Int) :
    (nextArrivals stationData nowSec noise).length = (keyList stationData).length ∧
    ∀ g ∈ nextArrivals stationData nowSec noise,
      1 ≤ g.upcoming.length ∧ g.upcoming.length ≤ 4 := by
  constructor
  · unfold nextArrivals
    rw [List.length_mergeSort]
    have hgen : ∀ l : List (Nat × (Str × Str × List Str)),
        (l.flatMap (fun p => groupsForKey p.2.1 p.2.2.1 p.2.2.2 nowSec (noise p.1))).length
          = l.length := by
      intro l
      induction l with
      | nil => simp
      | cons p tl ih =>
        obtain ⟨g, hg, _, _⟩ :=
          groupsForKey_eq_singleton p.2.1 p.2.2.1 p.2.2.2 nowSec (noise p.1)
        rw [List.flatMap_cons, hg]
        simp [ih]
    rw [hgen]
    simp [List.enum]
  · intro g hg
    unfold nextArrivals at hg
    rw [(List.mergeSort_perm _ _).mem_iff, List.mem_flatMap] at hg
    obtain ⟨p, _, hmem⟩ := hg
    obtain ⟨g', hg', h1, h4⟩ :=
      groupsForKey_eq_singleton p.2.1 p.2.2.1 p.2.2.2 nowSec (noise p.1)
    rw [hg'] at hmem
    rw [List.mem_singleton] at hmem
    rw [hmem]
    exact ⟨h1, h4⟩

unseal List.merge List.mergeSort in
/-- Witness for C10 at a concrete station: two lines, one headsign each. -/
theorem nextArrivals_totality_witness :
    (nextArrivals
        [("a".toList, [("Uptown".toList, ["08:05:00".toList])]),
         ("c".toList, [("Downtown".toList, ["13:00:00".toList])])]
        28800 (fun _ _ => 0)).length = 2 ∧
    ∀ g ∈ nextArrivals
        [("a".toList, [("Uptown".toList, ["08:05:00".toList])]),
         ("c".toList, [("Downtown".toList, ["13:00:00".toList])])]
        28800 (fun _ _ => 0),
      1 ≤ g.upcoming.length ∧ g.upcoming.length ≤ 4 := by
  have h := nextArrivals_totality
    [("a".toList, [("Uptown".toList, ["08:05:00".toList])]),
     ("c".toList, [("Downtown".toList, ["13:00:00".toList])])]
    28800 (fun _ _ => 0)
  exact ⟨by rw [h.1]; decide, h.2⟩

/-! ### Nearest stops query (src/src/App.jsx, lines 13-24 and 218-231) -/

/-- merge only compares first-list elements against second-list elements,
so comparators that agree there merge identically. -/
theorem merge_congr {α : Type} (le le' : α → α → Bool) :
    ∀ (l1 l2 : List α), (∀ a ∈ l1, ∀ b ∈ l2, le a b = le' a b) →
      List.merge l1 l2 le = List.merge l1 l2 le' := by
  intro l1
  induction l1 with
  | nil => intro l2 _; simp
  | cons x xs ih =>
    intro l2
    induction l2 with
    | nil => intro _; simp
    | cons y ys ih2 =>
      intro h
      have hxy : le x y = le' x y := h x (List.mem_cons_self x xs) y (List.mem_cons_self y ys)
      conv_lhs => rw [List.merge]
      conv_rhs => rw [List.merge]
      rw [← hxy]
      cases hc : le x y with
      | true =>
        rw [ih (y :: ys) (fun a ha b hb => h a (List.mem_cons_of_mem x ha) b hb)]
        simp
      | false =>
        rw [ih2 (fun a ha b hb => h a ha b (List.mem_cons_of_mem y hb))]
        simp

/-- mergeSort only compares elements of the input list, so comparators that
agree on it sort identically. -/
theorem mergeSort_congr {α : Type} (le le' : α → α → Bool) :
    ∀ (n : Nat) (l : List α), l.length ≤ n → (∀ a ∈ l, ∀ b ∈ l, le a b = le' a b) →
      l.mergeSort le = l.mergeSort le' := by
  intro n
  induction n with
  | zero =>
    intro l hl _
    rw [Nat.le_zero, List.length_eq_zero] at hl
    rw [hl]
    simp
  | succ n ih =>
    intro l hl h
    match l with
    | [] => simp
    | [a] => simp
    | a :: b :: xs =>
      rw [List.mergeSort, List.mergeSort]
      have happ : (@List.splitInTwo α (xs.length + 2) ⟨a :: b :: xs, rfl⟩).1.1 ++
          (@List.splitInTwo α (xs.length + 2) ⟨a :: b :: xs, rfl⟩).2.1 = a :: b :: xs :=
        List.splitInTwo_fst_append_splitInTwo_snd ⟨a :: b :: xs, rfl⟩
      have hsub1 : ∀ c ∈ (@List.splitInTwo α (xs.length + 2) ⟨a :: b :: xs, rfl⟩).1.1,
          c ∈ a :: b :: xs := by
        intro c hc
        rw [← happ]
        exact List.mem_append_left _ hc
      have hsub2 : ∀ c ∈ (@List.splitInTwo α (xs.length + 2) ⟨a :: b :: xs, rfl⟩).2.1,
          c ∈ a :: b :: xs := by
        intro c hc
        rw [← happ]
        exact List.mem_append_right _ hc
      have hlen1 : (@List.splitInTwo α (xs.length + 2) ⟨a :: b :: xs, rfl⟩).1.1.length ≤ n := by
        rw [(@List.splitInTwo α (xs.length + 2) ⟨a :: b :: xs, rfl⟩).1.2]
        simp only [List.length_cons] at hl
        omega
      have hlen2 : (@List.splitInTwo α (xs.length + 2) ⟨a :: b :: xs, rfl⟩).2.1.length ≤ n := by
        rw [(@List.splitInTwo α (xs.length + 2) ⟨a :: b :: xs, rfl⟩).2.2]
        simp only [List.length_cons] at hl
        omega
      rw [ih _ hlen1 (fun c hc d hd => h c (hsub1 c hc) d (hsub1 d hd)),
        ih _ hlen2 (fun c hc d hd => h c (hsub2 c hc) d (hsub2 d hd))]
      apply merge_congr
      intro c hc d hd
      have hc' : c ∈ a :: b :: xs :=
        hsub1 c ((List.mergeSort_perm _ _).mem_iff.mp hc)
      have hd' : d ∈ a :: b :: xs :=
        hsub2 d ((List.mergeSort_perm _ _).mem_iff.mp hd)
      exact h c hc' d hd'

/-- A JS number produced by parsing a feed field: `none` models NaN. The
selection pipeline only compares these values, so finite doubles are
modelled as rationals. -/
abbrev JsNum := Option ℚ

/-- One stop of stops.json: id and raw coordinates (Number(s.lat) and
Number(s.lon) give NaN, i.e. `none`, when the field is missing or
non-numeric). -/
structure StopRec where
  id : Str
  lat : JsNum
  lon : JsNum
deriving DecidableEq, Repr

/-- The boolean order induced by the comparator (a, b) => a.distM - b.distM
of nearbyStops: le means the comparator result is at most 0. Per the
ECMAScript SortCompare clause a NaN comparator result is coerced to +0, so
a pair with a NaN distance compares equal: le holds in both directions and
the stable sort keeps such pairs in encounter order. -/
def jsDistLe (a b : JsNum) : Bool :=
  match a, b with
  | some x, some y => decide (x ≤ y)
  | _, _ => true

/-- The filter s.distM <= 1200 of nearbyStops: false on NaN. -/
def within1200 (a : JsNum) : Bool :=
  match a with
  | some x => decide (x ≤ 1200)
  | none => false

/-- The withDist stage of nearbyStops (src/src/App.jsx, lines 218-231):
attach a distance to every stop and sort ascending by distance. In the
source the distance of a stop s is
distanceMeters(activeLoc.lat, activeLoc.lon, Number(s.lat), Number(s.lon)),
a floating-point trigonometric computation embedded separately below as
distanceMeters; the pipeline takes the per-stop distance function as the
parameter dist. -/
def withDist (dist : StopRec → JsNum) (stops : List StopRec) : List (StopRec × JsNum) :=
  (stops.map (fun s => (s, dist s))).mergeSort (fun a b => jsDistLe a.2 b.2)

/-- The stops within the 1200 m radius, in sorted order. -/
def withinRadius (dist : StopRec → JsNum) (stops : List StopRec) : List (StopRec × JsNum) :=
  (withDist dist stops).filter (fun s => within1200 s.2)

/-- nearbyStops: the stops within the 1200 m radius, or the full
distance-sorted list when none qualifies, truncated to the 12 nearest. -/
def nearbyStops (dist : StopRec → JsNum) (stops : List StopRec) :
    List (StopRec × JsNum) :=
  (if (withinRadius dist stops).length ≠ 0 then withinRadius dist stops
   else withDist dist stops).take 12

/-! ### The haversine distance (src/src/App.jsx, distanceMeters)

The float computation is embedded over the reals, with `none` for NaN:
every arithmetic and trigonometric operation propagates NaN, and
Math.sqrt of a negative argument produces NaN. -/

/-- A unary JS float operation: NaN in, NaN out. -/
noncomputable def jsUn (f : ℝ → ℝ) : Option ℝ → Option ℝ
  | some a => some (f a)
  | none => none

/-- A binary JS float operation: NaN in, NaN out. -/
noncomputable def jsBin (f : ℝ → ℝ → ℝ) : Option ℝ → Option ℝ → Option ℝ
  | some a, some b => some (f a b)
  | _, _ => none

/-- JS Math.sqrt: NaN on NaN or negative input. -/
noncomputable def jsSqrt : Option ℝ → Option ℝ
  | some a => if a < 0 then none else some (Real.sqrt a)
  | none => none

/-- Math.atan2(y, x) for finite arguments, by quadrant. -/
noncomputable def atan2 (y x : ℝ) : ℝ :=
  if 0 < x then Real.arctan (y / x)
  else if x = 0 then (if 0 < y then Real.pi / 2 else if y < 0 then -(Real.pi / 2) else 0)
  else if 0 ≤ y then Real.arctan (y / x) + Real.pi
  else Real.arctan (y / x) - Real.pi

/-- JS Math.atan2 lifted to NaN-aware arguments. -/
noncomputable def jsAtan2 : Option ℝ → Option ℝ → Option ℝ
  | some y, some x => some (atan2 y x)
  | _, _ => none

/-- distanceMeters (src/src/App.jsx, lines 13-24): the haversine
great-circle distance with Earth radius 6371000 m, over NaN-aware floats. -/
noncomputable def distanceMeters (aLat aLon bLat bLon : Option ℝ) : Option ℝ :=
  let R : ℝ := 6371000
  let toRad := jsUn (fun d => d * Real.pi / 180)
  let dLat := toRad (jsBin (fun u v => u - v) bLat aLat)
  let dLon := toRad (jsBin (fun u v => u - v) bLon aLon)
  let lat1 := toRad aLat
  let lat2 := toRad bLat
  let x := jsBin (fun u v => u + v)
    (jsUn (fun t => Real.sin (t / 2) ^ 2) dLat)
    (jsBin (fun u v => u * v)
      (jsBin (fun u v => u * v) (jsUn Real.cos lat1) (jsUn Real.cos lat2))
      (jsUn (fun t => Real.sin (t / 2) ^ 2) dLon))
  jsBin (fun u v => u * v) (some (2 * R))
    (jsAtan2 (jsSqrt x) (jsSqrt (jsBin (fun u v => u - v) (some 1) x)))

theorem jsUn_none (f : ℝ → ℝ) : jsUn f none = none := rfl

theorem jsUn_some (f : ℝ → ℝ) (a : ℝ) : jsUn f (some a) = some (f a) := rfl

theorem jsBin_none_left (f : ℝ → ℝ → ℝ) (b : Option ℝ) : jsBin f none b = none := by
  cases b <;> rfl

theorem jsBin_none_right (f : ℝ → ℝ → ℝ) (a : Option ℝ) : jsBin f a none = none := by
  cases a <;> rfl

theorem jsBin_some (f : ℝ → ℝ → ℝ) (a b : ℝ) : jsBin f (some a) (some b) = some (f a b) := rfl

theorem jsSqrt_none : jsSqrt none = none := rfl

theorem jsAtan2_none_right (y : Option ℝ) : jsAtan2 y none = none := by
  cases y <;> rfl

theorem jsAtan2_none_left (x : Option ℝ) : jsAtan2 none x = none := rfl

/-- A missing or non-numeric coordinate of either endpoint makes the
computed distance NaN (not infinite). -/
theorem distanceMeters_nan (aLat aLon bLat bLon : Option ℝ)
    (h : aLat = none ∨ aLon = none ∨ bLat = none ∨ bLon = none) :
    distanceMeters aLat aLon bLat bLon = none := by
  unfold distanceMeters
  rcases h with h | h | h | h <;> rw [h] <;>
    simp only [jsUn_none, jsBin_none_left, jsBin_none_right, jsSqrt_none,
      jsAtan2_none_left, jsAtan2_none_right]

/-- Concrete evaluation of the haversine: from (0, 0) to (0, 180) the
distance is a quarter turn twice, 6371000 * pi meters. -/
theorem distanceMeters_antipodal :
    distanceMeters (some 0) (some 0) (some 0) (some 180) = some (6371000 * Real.pi) := by
  unfold distanceMeters
  simp only [jsBin_some, jsUn_some]
  rw [show ((0 : ℝ) - 0) * Real.pi / 180 = 0 by ring]
  rw [show ((180 : ℝ) - 0) * Real.pi / 180 = Real.pi by ring]
  rw [show (0 : ℝ) * Real.pi / 180 = 0 by ring]
  rw [show (0 : ℝ) / 2 = 0 by ring]
  rw [Real.sin_zero, Real.cos_zero, Real.sin_pi_div_two]
  norm_num [jsSqrt]
  rw [jsAtan2, atan2]
  norm_num
  rw [jsBin_some]
  congr 1
  ring

/-- At most 12 stops are returned. -/
theorem nearbyStops_length_le (dist : StopRec → JsNum) (stops : List StopRec) :
    (nearbyStops dist stops).length ≤ 12 := by
  unfold nearbyStops
  exact List.length_take_le 12 _

/-- Every element of the sorted-with-distance list comes from a stop. -/
theorem withDist_mem (dist : StopRec → JsNum) (stops : List StopRec)
    (p : StopRec × JsNum) (hp : p ∈ withDist dist stops) :
    ∃ s ∈ stops, p = (s, dist s) := by
  unfold withDist at hp
  rw [(List.mergeSort_perm _ _).mem_iff, List.mem_map] at hp
  obtain ⟨s, hs, rfl⟩ := hp
  exact ⟨s, hs, rfl⟩

/-- When some stop lies within 1200 m, every returned entry does. -/
theorem nearbyStops_within_path (dist : StopRec → JsNum) (stops : List StopRec)
    (h : ∃ s ∈ stops, within1200 (dist s) = true) :
    ∀ p ∈ nearbyStops dist stops, within1200 p.2 = true := by
  intro p hp
  obtain ⟨s, hs, hsw⟩ := h
  unfold nearbyStops at hp
  have hmem : (s, dist s) ∈ withDist dist stops := by
    unfold withDist
    rw [(List.mergeSort_perm _ _).mem_iff]
    exact List.mem_map_of_mem _ hs
  have hin : (s, dist s) ∈ withinRadius dist stops :=
    List.mem_filter.mpr ⟨hmem, hsw⟩
  have hne : (withinRadius dist stops).length ≠ 0 := by
    intro hz
    rw [List.length_eq_zero] at hz
    rw [hz] at hin
    exact (List.not_mem_nil _) hin
  rw [if_pos hne] at hp
  have := List.take_subset 12 _ hp
  exact (List.mem_filter.mp this).2

/-- When no stop lies within 1200 m, the query falls back to the first 12
of the full distance-sorted list. -/
theorem nearbyStops_fallback (dist : StopRec → JsNum) (stops : List StopRec)
    (h : ∀ s ∈ stops, within1200 (dist s) = false) :
    nearbyStops dist stops = (withDist dist stops).take 12 := by
  unfold nearbyStops
  have hnil : withinRadius dist stops = [] := by
    unfold withinRadius
    rw [List.filter_eq_nil_iff]
    intro p hp
    obtain ⟨s, hs, rfl⟩ := withDist_mem dist stops p hp
    rw [h s hs]
    exact Bool.false_ne_true
  rw [hnil]
  simp

theorem distLeD_trans (a b c : StopRec × JsNum) :
    decide (a.2.getD 0 ≤ b.2.getD 0) = true → decide (b.2.getD 0 ≤ c.2.getD 0) = true →
      decide (a.2.getD 0 ≤ c.2.getD 0) = true := by
  simp only [decide_eq_true_eq]
  exact le_trans

theorem distLeD_total (a b : StopRec × JsNum) :
    (decide (a.2.getD 0 ≤ b.2.getD 0) || decide (b.2.getD 0 ≤ a.2.getD 0)) = true := by
  simp only [Bool.or_eq_true, decide_eq_true_eq]
  exact le_total _ _

/-- With valid (non-NaN) distances throughout, the returned list is sorted
ascending by distance. -/
theorem nearbyStops_sorted (dist : StopRec → JsNum) (stops : List StopRec)
    (h : ∀ s ∈ stops, (dist s).isSome = true) :
    (nearbyStops dist stops).Pairwise (fun a b => jsDistLe a.2 b.2 = true) := by
  have hagree : ∀ a ∈ (stops.map (fun s => (s, dist s))),
      ∀ b ∈ (stops.map (fun s => (s, dist s))),
      jsDistLe a.2 b.2 = decide (a.2.getD 0 ≤ b.2.getD 0) := by
    intro a ha b hb
    rw [List.mem_map] at ha hb
    obtain ⟨s, hs, rfl⟩ := ha
    obtain ⟨t, ht, rfl⟩ := hb
    obtain ⟨x, hx⟩ := Option.isSome_iff_exists.mp (h s hs)
    obtain ⟨y, hy⟩ := Option.isSome_iff_exists.mp (h t ht)
    simp only [hx, hy]
    rfl
  have hcong : withDist dist stops =
      (stops.map (fun s => (s, dist s))).mergeSort
        (fun a b => decide (a.2.getD 0 ≤ b.2.getD 0)) :=
    mergeSort_congr _ _ (stops.map (fun s => (s, dist s))).length _ le_rfl hagree
  have hsorted : (withDist dist stops).Pairwise
      (fun a b => decide (a.2.getD 0 ≤ b.2.getD 0) = true) := by
    rw [hcong]
    exact List.sorted_mergeSort distLeD_trans distLeD_total _
  have hval : ∀ p ∈ withDist dist stops, p.2.isSome = true := by
    intro p hp
    obtain ⟨s, hs, rfl⟩ := withDist_mem dist stops p hp
    exact h s hs
  have hres : (nearbyStops dist stops).Sublist (withDist dist stops) := by
    unfold nearbyStops
    by_cases hc : (withinRadius dist stops).length ≠ 0
    · rw [if_pos hc]
      refine (List.take_sublist _ _).trans ?_
      unfold withinRadius
      exact List.filter_sublist _
    · rw [if_neg hc]
      exact List.take_sublist _ _
  refine List.Pairwise.imp_of_mem ?_ (hsorted.sublist hres)
  intro a b ha hb hd
  have ha' := hval a (hres.subset ha)
  have hb' := hval b (hres.subset hb)
  obtain ⟨x, hx⟩ := Option.isSome_iff_exists.mp ha'
  obtain ⟨y, hy⟩ := Option.isSome_iff_exists.mp hb'
  rw [hx, hy] at hd ⊢
  exact hd

unseal List.merge List.mergeSort in
/-- Concrete evaluation of the query at distances 1300, 100, 2000, 500:
exactly the 100 m and 500 m stops return, in ascending order. -/
theorem nearbyStops_example :
    nearbyStops
      (fun s => if s.id = "a".toList then some 1300
        else if s.id = "b".toList then some 100
        else if s.id = "c".toList then some 2000 else some 500)
      [⟨"a".toList, some 1, some 1⟩, ⟨"b".toList, some 1, some 1⟩,
       ⟨"c".toList, some 1, some 1⟩, ⟨"d".toList, some 1, some 1⟩] =
      [(⟨"b".toList, some 1, some 1⟩, some 100), (⟨"d".toList, some 1, some 1⟩, some 500)] := by
  decide

/-- Claim C6: the nearest-stops query sorts stops ascending by distance,
keeps those within 1200 m, falls back to the full distance-sorted list
exactly when the filtered set is empty, and returns the first 12; on
distances 1300, 100, 2000, 500 it returns exactly the 100 m and 500 m
stops ascending. The per-stop distance is the haversine great-circle
distance with Earth radius 6371000 m (distanceMeters, evaluated here at an
equatorial half turn). -/
theorem nearbyStops_query (dist : StopRec → JsNum) (stops : List StopRec) :
    (nearbyStops dist stops).length ≤ 12 ∧
    ((∃ s ∈ stops, within1200 (dist s) = true) →
      ∀ p ∈ nearbyStops dist stops, within1200 p.2 = true) ∧
    ((∀ s ∈ stops, within1200 (dist s) = false) →
      nearbyStops dist stops = (withDist dist stops).take 12) ∧
    ((∀ s ∈ stops, (dist s).isSome = true) →
      (nearbyStops dist stops).Pairwise (fun a b => jsDistLe a.2 b.2 = true)) ∧
    distanceMeters (some 0) (some 0) (some 0) (some 180) = some (6371000 * Real.pi) ∧
    nearbyStops
      (fun s => if s.id = "a".toList then some 1300
        else if s.id = "b".toList then some 100
        else if s.id = "c".toList then some 2000 else some 500)
      [⟨"a".toList, some 1, some 1⟩, ⟨"b".toList, some 1, some 1⟩,
       ⟨"c".toList, some 1, some 1⟩, ⟨"d".toList, some 1, some 1⟩] =
      [(⟨"b".toList, some 1, some 1⟩, some 100), (⟨"d".toList, some 1, some 1⟩, some 500)] :=
  ⟨nearbyStops_length_le dist stops,
   nearbyStops_within_path dist stops,
   nearbyStops_fallback dist stops,
   nearbyStops_sorted dist stops,
   distanceMeters_antipodal,
   nearbyStops_example⟩

unseal List.merge List.mergeSort in
/-- Witness for C6: the within-1200 guarantee applied at the concrete
four-stop example. -/
theorem nearbyStops_query_witness :
    ∀ p ∈ nearbyStops
      (fun s => if s.id = "a".toList then some 1300
        else if s.id = "b".toList then some 100
        else if s.id = "c".toList then some 2000 else some 500)
      [⟨"a".toList, some 1, some 1⟩, ⟨"b".toList, some 1, some 1⟩,
       ⟨"c".toList, some 1, some 1⟩, ⟨"d".toList, some 1, some 1⟩],
      within1200 p.2 = true :=
  (nearbyStops_query _ _).2.1
    ⟨⟨"b".toList, some 1, some 1⟩, by decide, by decide⟩

unseal List.merge List.mergeSort in
/-- Counterexample to claim C5 as stated: a stop with missing coordinates
gets a NaN distance (distanceMeters_nan), not an infinite one. In the
fallback path (here: the only valid stop is 2000 m away, beyond the
1200 m radius) the NaN entry compares equal to every distance, so the
stable sort leaves the invalid stop in first position, ahead of the valid
stop — the claim says this never happens. -/
theorem nearbyStops_invalid_counterexample :
    nearbyStops
      (fun s => if s.id = "bad".toList then none else some 2000)
      [⟨"bad".toList, none, none⟩, ⟨"good".toList, some 40, some 73⟩] =
      [(⟨"bad".toList, none, none⟩, none),
       (⟨"good".toList, some 40, some 73⟩, some 2000)] := by
  decide

/-- Claim C5, amended: a stop with a missing or non-numeric coordinate
gets NaN (not infinite) distance; a NaN distance compares equal to every
distance in the sort (so such a stop keeps its encounter position instead
of sinking to the end), and it never passes the 1200 m filter, so whenever
any stop lies within the radius the returned list contains no
invalid-coordinate stop; but in the fallback path an invalid stop can
precede valid ones (see nearbyStops_invalid_counterexample). -/
theorem nearbyStops_invalid_coords :
    (∀ aLat aLon bLat bLon : Option ℝ, bLat = none ∨ bLon = none →
      distanceMeters aLat aLon bLat bLon = none) ∧
    (∀ a : JsNum, jsDistLe none a = true ∧ jsDistLe a none = true) ∧
    within1200 none = false ∧
    (∀ (dist : StopRec → JsNum) (stops : List StopRec),
      (∃ s ∈ stops, within1200 (dist s) = true) →
      ∀ p ∈ nearbyStops dist stops, p.2 ≠ none) := by
  refine ⟨?_, ?_, rfl, ?_⟩
  · intro aLat aLon bLat bLon h
    rcases h with h | h
    · exact distanceMeters_nan aLat aLon bLat bLon (Or.inr (Or.inr (Or.inl h)))
    · exact distanceMeters_nan aLat aLon bLat bLon (Or.inr (Or.inr (Or.inr h)))
  · intro a
    constructor
    · rfl
    · cases a <;> rfl
  · intro dist stops h p hp
    have := nearbyStops_within_path dist stops h p hp
    intro hnone
    rw [hnone] at this
    exact Bool.false_ne_true this

unseal List.merge List.mergeSort in
/-- Witness for the amended C5: the within-radius guarantee applied at a
concrete pair of stops, one invalid and one 100 m away. -/
theorem nearbyStops_invalid_coords_witness :
    ∀ p ∈ nearbyStops
      (fun s => if s.id = "bad".toList then none else some 100)
      [⟨"bad".toList, none, none⟩, ⟨"good".toList, some 40, some 73⟩],
      p.2 ≠ none :=
  nearbyStops_invalid_coords.2.2.2 _ _
    ⟨⟨"good".toList, some 40, some 73⟩, by decide, by decide⟩

/-! ### The tabular readers

Three CSV line/text parsers occur in the repository:
- splitCsvLine (scripts/build_station_to_lines.mjs and the arrivals
  builder): toggles an in-quotes flag on every quote character and drops
  it; a comma outside quotes ends the field;
- parseCSVLine (build_route_shapes.mjs): same, but a doubled quote while
  in quotes emits one literal quote;
- parseCSV (build_gtfs_json.js): full-text variant of parseCSVLine that
  also splits rows on newlines (skipping the CR of a CRLF pair) and drops
  rows whose cells are all blank after trimming. -/

/-- splitCsvLine state machine: current input, accumulated current field,
in-quotes flag. -/
def splitCsvLineAux : Str → Str → Bool → List Str
  | [], cur, _ => [cur]
  | c :: rest, cur, inQuotes =>
    if c = '"' then splitCsvLineAux rest cur (!inQuotes)
    else if c = ',' ∧ inQuotes = false then cur :: splitCsvLineAux rest [] inQuotes
    else splitCsvLineAux rest (cur ++ [c]) inQuotes

/-- splitCsvLine of the station-to-lines and arrivals builders. -/
def splitCsvLine (line : Str) : List Str := splitCsvLineAux line [] false

/-- parseCSVLine state machine of build_route_shapes.mjs: a quote while in
quotes followed by another quote emits a literal quote and skips it;
otherwise a quote toggles the flag. -/
def parseCSVLineAux : Str → Str → Bool → List Str
  | [], cur, _ => [cur]
  | [c], cur, inQuotes =>
    if c = '"' then parseCSVLineAux [] cur (!inQuotes)
    else if c = ',' ∧ inQuotes = false then cur :: parseCSVLineAux [] [] inQuotes
    else parseCSVLineAux [] (cur ++ [c]) inQuotes
  | c :: d :: rest, cur, inQuotes =>
    if c = '"' then
      if inQuotes ∧ d = '"' then parseCSVLineAux rest (cur ++ ['"']) true
      else parseCSVLineAux (d :: rest) cur (!inQuotes)
    else if c = ',' ∧ inQuotes = false then cur :: parseCSVLineAux (d :: rest) [] inQuotes
    else parseCSVLineAux (d :: rest) (cur ++ [c]) inQuotes

/-- parseCSVLine of build_route_shapes.mjs. -/
def parseCSVLine (line : Str) : List Str := parseCSVLineAux line [] false

/-- parseCSV state machine of build_gtfs_json.js over the whole text:
input, accumulated row, current cell, in-quotes flag; emits rows on
unquoted newlines and at end of input when anything is pending. -/
def parseCSVAux : Str → List Str → Str → Bool → List (List Str)
  | [], row, cur, _ =>
    if cur.length ≠ 0 ∨ row.length ≠ 0 then [row ++ [cur]] else []
  | [c], row, cur, inQuotes =>
    if c = '"' then parseCSVAux [] row cur (!inQuotes)
    else if inQuotes = false ∧ (c = ',' ∨ c = '\n' ∨ c = '\r') then
      if c = ',' then parseCSVAux [] (row ++ [cur]) [] inQuotes
      else (row ++ [cur]) :: parseCSVAux [] [] [] inQuotes
    else parseCSVAux [] row (cur ++ [c]) inQuotes
  | c :: d :: rest, row, cur, inQuotes =>
    if c = '"' then
      if inQuotes ∧ d = '"' then parseCSVAux rest row (cur ++ ['"']) true
      else parseCSVAux (d :: rest) row cur (!inQuotes)
    else if inQuotes = false ∧ (c = ',' ∨ c = '\n' ∨ c = '\r') then
      if c = '\r' ∧ d = '\n' then parseCSVAux (d :: rest) row cur inQuotes
      else if c = ',' then parseCSVAux (d :: rest) (row ++ [cur]) [] inQuotes
      else (row ++ [cur]) :: parseCSVAux (d :: rest) [] [] inQuotes
    else parseCSVAux (d :: rest) row (cur ++ [c]) inQuotes

/-- parseCSV of build_gtfs_json.js: run the machine, then drop rows whose
cells are all blank after trimming. -/
def parseCSV (text : Str) : List (List Str) :=
  (parseCSVAux text [] [] false).filter (fun r => r.any (fun c => !(jsTrim c).isEmpty))

/-- Modelled from the spec (4.1 Tabular Reader): the quoted encoding of a
field — a literal quote is doubled. Used to state the quoting claim. -/
def escapeQuotes (f : Str) : Str :=
  f.flatMap (fun c => if c = '"' then ['"', '"'] else [c])

/-- Modelled from the spec (4.1 Tabular Reader): a field wrapped in quotes
with inner quotes doubled. -/
def encodeField (f : Str) : Str := '"' :: (escapeQuotes f ++ ['"'])

/-- Modelled from the spec (4.1 Tabular Reader): a record of quoted
fields joined by the comma delimiter. -/
def encodeLine : List Str → Str
  | [] => []
  | [f] => encodeField f
  | f :: g :: fs => encodeField f ++ ',' :: encodeLine (g :: fs)

/-- Inside a quoted region, parseCSVLine copies the escaped field verbatim
(doubled quotes becoming single) and leaves quoted state at the closing
quote, provided no stray quote follows it. -/
theorem parseCSVLineAux_quoted (f : Str) : ∀ (cur tail : Str), tail.head? ≠ some '"' →
    parseCSVLineAux (escapeQuotes f ++ '"' :: tail) cur true =
      parseCSVLineAux tail (cur ++ f) false := by
  induction f with
  | nil =>
    intro cur tail h
    simp only [escapeQuotes, List.flatMap_nil, List.nil_append, List.append_nil]
    cases tail with
    | nil => simp [parseCSVLineAux]
    | cons t ts =>
      have ht : t ≠ '"' := by
        intro he
        rw [he] at h
        exact h rfl
      simp [parseCSVLineAux, ht]
  | cons c f' ih =>
    intro cur tail h
    by_cases hc : c = '"'
    · subst hc
      have hesc : escapeQuotes ('"' :: f') = '"' :: '"' :: escapeQuotes f' := by
        simp [escapeQuotes]
      rw [hesc]
      show parseCSVLineAux ('"' :: '"' :: (escapeQuotes f' ++ '"' :: tail)) cur true = _
      have hstep : parseCSVLineAux ('"' :: '"' :: (escapeQuotes f' ++ '"' :: tail)) cur true =
          parseCSVLineAux (escapeQuotes f' ++ '"' :: tail) (cur ++ ['"']) true := by
        simp [parseCSVLineAux]
      rw [hstep, ih (cur ++ ['"']) tail h]
      simp
    · have hesc : escapeQuotes (c :: f') = c :: escapeQuotes f' := by
        simp [escapeQuotes, hc]
      rw [hesc]
      show parseCSVLineAux (c :: (escapeQuotes f' ++ '"' :: tail)) cur true = _
      cases hdd : escapeQuotes f' ++ '"' :: tail with
      | nil => exact absurd hdd (by simp)
      | cons d ds =>
        have hstep : parseCSVLineAux (c :: d :: ds) cur true =
            parseCSVLineAux (d :: ds) (cur ++ [c]) true := by
          simp [parseCSVLineAux, hc]
        have hgoal : parseCSVLineAux (d :: ds) (cur ++ [c]) true =
            parseCSVLineAux tail ((cur ++ [c]) ++ f') false := by
          rw [← hdd]
          exact ih (cur ++ [c]) tail h
        rw [hstep, hgoal]
        simp

/-- parseCSVLine decodes a full quoted record: every field comes back
verbatim, doubled quotes decoded to single literal quotes, quoted commas
and quotes kept literal. -/
theorem parseCSVLineAux_encode (fs : List Str) : ∀ (f cur : Str),
    parseCSVLineAux (encodeLine (f :: fs)) cur false = (cur ++ f) :: fs := by
  induction fs with
  | nil =>
    intro f cur
    show parseCSVLineAux ('"' :: (escapeQuotes f ++ ['"'])) cur false = _
    cases hdd : escapeQuotes f ++ ['"'] with
    | nil => exact absurd hdd (by simp)
    | cons d ds =>
      have hstep : parseCSVLineAux ('"' :: d :: ds) cur false =
          parseCSVLineAux (d :: ds) cur true := by
        simp [parseCSVLineAux]
      have hquoted : parseCSVLineAux (d :: ds) cur true =
          parseCSVLineAux [] (cur ++ f) false := by
        rw [← hdd]
        exact parseCSVLineAux_quoted f cur [] (by simp)
      rw [hstep, hquoted]
      simp [parseCSVLineAux]
  | cons g fs' ih =>
    intro f cur
    have hshape : encodeLine (f :: g :: fs') =
        '"' :: (escapeQuotes f ++ '"' :: ',' :: encodeLine (g :: fs')) := by
      simp [encodeLine, encodeField]
    rw [hshape]
    cases hdd : escapeQuotes f ++ '"' :: ',' :: encodeLine (g :: fs') with
    | nil => exact absurd hdd (by simp)
    | cons d ds =>
      have hstep : parseCSVLineAux ('"' :: d :: ds) cur false =
          parseCSVLineAux (d :: ds) cur true := by
        simp [parseCSVLineAux]
      have hquoted : parseCSVLineAux (d :: ds) cur true =
          parseCSVLineAux (',' :: encodeLine (g :: fs')) (cur ++ f) false := by
        rw [← hdd]
        exact parseCSVLineAux_quoted f cur (',' :: encodeLine (g :: fs')) (by simp)
      have hcomma : parseCSVLineAux (',' :: encodeLine (g :: fs')) (cur ++ f) false =
          (cur ++ f) :: parseCSVLineAux (encodeLine (g :: fs')) [] false := by
        cases hee : encodeLine (g :: fs') with
        | nil =>
          cases fs' <;> simp [encodeLine, encodeField] at hee
        | cons e es =>
          simp [parseCSVLineAux]
      rw [hstep, hquoted, hcomma, ih g []]
      simp

theorem escapeQuotes_eq_self (f : Str) (h : '"' ∉ f) : escapeQuotes f = f := by
  induction f with
  | nil => rfl
  | cons c f' ih =>
    have hc : c ≠ '"' := fun he => h (by rw [he]; exact List.mem_cons_self _ _)
    have h' : '"' ∉ f' := fun hm => h (List.mem_cons_of_mem _ hm)
    simp [escapeQuotes, hc]
    simpa [escapeQuotes] using ih h'

/-- splitCsvLine keeps everything inside a quoted region literal
(including commas) but drops the quote characters themselves. -/
theorem splitCsvLineAux_quoted (f : Str) : '"' ∉ f → ∀ (cur tail : Str),
    splitCsvLineAux (f ++ '"' :: tail) cur true = splitCsvLineAux tail (cur ++ f) false := by
  induction f with
  | nil =>
    intro _ cur tail
    simp [splitCsvLineAux]
  | cons c f' ih =>
    intro hq cur tail
    have hc : c ≠ '"' := fun he => hq (by rw [he]; exact List.mem_cons_self _ _)
    have hq' : '"' ∉ f' := fun hm => hq (List.mem_cons_of_mem _ hm)
    have hstep : splitCsvLineAux (c :: (f' ++ '"' :: tail)) cur true =
        splitCsvLineAux (f' ++ '"' :: tail) (cur ++ [c]) true := by
      simp [splitCsvLineAux, hc]
    show splitCsvLineAux (c :: (f' ++ '"' :: tail)) cur true = _
    rw [hstep, ih hq' (cur ++ [c]) tail]
    simp

/-- splitCsvLine round trip for quote-free fields: the quoted-comma rule
holds in splitCsvLine as well. -/
theorem splitCsvLineAux_encode (fs : List Str) : ∀ (f cur : Str),
    (∀ g ∈ f :: fs, '"' ∉ g) →
    splitCsvLineAux (encodeLine (f :: fs)) cur false = (cur ++ f) :: fs := by
  induction fs with
  | nil =>
    intro f cur hq
    have hesc : escapeQuotes f = f :=
      escapeQuotes_eq_self f (hq f (List.mem_cons_self _ _))
    show splitCsvLineAux ('"' :: (escapeQuotes f ++ ['"'])) cur false = _
    rw [hesc]
    have hstep : splitCsvLineAux ('"' :: (f ++ ['"'])) cur false =
        splitCsvLineAux (f ++ ['"']) cur true := by
      simp [splitCsvLineAux]
    rw [hstep, splitCsvLineAux_quoted f (hq f (List.mem_cons_self _ _)) cur []]
    simp [splitCsvLineAux]
  | cons g fs' ih =>
    intro f cur hq
    have hesc : escapeQuotes f = f :=
      escapeQuotes_eq_self f (hq f (List.mem_cons_self _ _))
    have hshape : encodeLine (f :: g :: fs') =
        '"' :: (f ++ '"' :: ',' :: encodeLine (g :: fs')) := by
      simp [encodeLine, encodeField, hesc]
    rw [hshape]
    have hstep : splitCsvLineAux ('"' :: (f ++ '"' :: ',' :: encodeLine (g :: fs'))) cur false =
        splitCsvLineAux (f ++ '"' :: ',' :: encodeLine (g :: fs')) cur true := by
      simp [splitCsvLineAux]
    rw [hstep,
      splitCsvLineAux_quoted f (hq f (List.mem_cons_self _ _)) cur
        (',' :: encodeLine (g :: fs'))]
    have hcomma : splitCsvLineAux (',' :: encodeLine (g :: fs')) (cur ++ f) false =
        (cur ++ f) :: splitCsvLineAux (encodeLine (g :: fs')) [] false := by
      simp [splitCsvLineAux]
    rw [hcomma, ih g [] (fun x hx => hq x (List.mem_cons_of_mem _ hx))]
    simp

/-- parseCSV behaves like parseCSVLine inside a quoted region: the escaped
field is copied verbatim with doubled quotes decoded. -/
theorem parseCSVAux_quoted (f : Str) : ∀ (row : List Str) (cur tail : Str),
    tail.head? ≠ some '"' →
    parseCSVAux (escapeQuotes f ++ '"' :: tail) row cur true =
      parseCSVAux tail row (cur ++ f) false := by
  induction f with
  | nil =>
    intro row cur tail h
    simp only [escapeQuotes, List.flatMap_nil, List.nil_append, List.append_nil]
    cases tail with
    | nil => simp [parseCSVAux]
    | cons t ts =>
      have ht : t ≠ '"' := by
        intro he
        rw [he] at h
        exact h rfl
      simp [parseCSVAux, ht]
  | cons c f' ih =>
    intro row cur tail h
    by_cases hc : c = '"'
    · subst hc
      have hesc : escapeQuotes ('"' :: f') = '"' :: '"' :: escapeQuotes f' := by
        simp [escapeQuotes]
      rw [hesc]
      show parseCSVAux ('"' :: '"' :: (escapeQuotes f' ++ '"' :: tail)) row cur true = _
      have hstep : parseCSVAux ('"' :: '"' :: (escapeQuotes f' ++ '"' :: tail)) row cur true =
          parseCSVAux (escapeQuotes f' ++ '"' :: tail) row (cur ++ ['"']) true := by
        simp [parseCSVAux]
      rw [hstep, ih row (cur ++ ['"']) tail h]
      simp
    · have hesc : escapeQuotes (c :: f') = c :: escapeQuotes f' := by
        simp [escapeQuotes, hc]
      rw [hesc]
      show parseCSVAux (c :: (escapeQuotes f' ++ '"' :: tail)) row cur true = _
      cases hdd : escapeQuotes f' ++ '"' :: tail with
      | nil => exact absurd hdd (by simp)
      | cons d ds =>
        have hstep : parseCSVAux (c :: d :: ds) row cur true =
            parseCSVAux (d :: ds) row (cur ++ [c]) true := by
          simp [parseCSVAux, hc]
        have hgoal : parseCSVAux (d :: ds) row (cur ++ [c]) true =
            parseCSVAux tail row ((cur ++ [c]) ++ f') false := by
          rw [← hdd]
          exact ih row (cur ++ [c]) tail h
        rw [hstep, hgoal]
        simp

/-- parseCSV machine on one encoded record: the record comes back as one
row appended to the pending row, unless everything is empty. -/
theorem parseCSVAux_encode (fs : List Str) : ∀ (f : Str) (row : List Str) (cur : Str),
    parseCSVAux (encodeLine (f :: fs)) row cur false =
      if cur ++ f = [] ∧ fs = [] ∧ row = [] then [] else [row ++ (cur ++ f) :: fs] := by
  induction fs with
  | nil =>
    intro f row cur
    show parseCSVAux ('"' :: (escapeQuotes f ++ ['"'])) row cur false = _
    cases hdd : escapeQuotes f ++ ['"'] with
    | nil => exact absurd hdd (by simp)
    | cons d ds =>
      have hstep : parseCSVAux ('"' :: d :: ds) row cur false =
          parseCSVAux (d :: ds) row cur true := by
        simp [parseCSVAux]
      have hquoted : parseCSVAux (d :: ds) row cur true =
          parseCSVAux [] row (cur ++ f) false := by
        rw [← hdd]
        exact parseCSVAux_quoted f row cur [] (by simp)
      rw [hstep, hquoted]
      show (if (cur ++ f).length ≠ 0 ∨ row.length ≠ 0 then [row ++ [cur ++ f]] else []) = _
      split_ifs with h1 h2 <;> simp_all [List.length_eq_zero]
  | cons g fs' ih =>
    intro f row cur
    have hshape : encodeLine (f :: g :: fs') =
        '"' :: (escapeQuotes f ++ '"' :: ',' :: encodeLine (g :: fs')) := by
      simp [encodeLine, encodeField]
    rw [hshape]
    cases hdd : escapeQuotes f ++ '"' :: ',' :: encodeLine (g :: fs') with
    | nil => exact absurd hdd (by simp)
    | cons d ds =>
      have hstep : parseCSVAux ('"' :: d :: ds) row cur false =
          parseCSVAux (d :: ds) row cur true := by
        simp [parseCSVAux]
      have hquoted : parseCSVAux (d :: ds) row cur true =
          parseCSVAux (',' :: encodeLine (g :: fs')) row (cur ++ f) false := by
        rw [← hdd]
        exact parseCSVAux_quoted f row cur (',' :: encodeLine (g :: fs')) (by simp)
      have hcomma : parseCSVAux (',' :: encodeLine (g :: fs')) row (cur ++ f) false =
          parseCSVAux (encodeLine (g :: fs')) (row ++ [cur ++ f]) [] false := by
        cases hee : encodeLine (g :: fs') with
        | nil =>
          cases fs' <;> simp [encodeLine, encodeField] at hee
        | cons e es =>
          simp [parseCSVAux]
      rw [hstep, hquoted, hcomma, ih g (row ++ [cur ++ f]) []]
      simp

/-- Counterexample to claim C9 as stated: on the same input line, a
doubled quote inside a quoted field yields one literal quote under
parseCSVLine but no character at all under splitCsvLine, which merely
toggles on (and drops) every quote. -/
theorem tabularReader_quoting_counterexample :
    splitCsvLine "\"a\"\"b\",c".toList = ["ab".toList, "c".toList] ∧
    parseCSVLine "\"a\"\"b\",c".toList = ["a\"b".toList, "c".toList] ∧
    "ab".toList ≠ "a\"b".toList := by
  refine ⟨by decide, by decide, by decide⟩

/-- Claim C9, amended: parseCSVLine and parseCSV decode a doubled quote
inside a quoted field to exactly one literal quote and keep quoted
delimiters literal (full round trip of a quoted record; parseCSV also
drops an all-blank record). splitCsvLine keeps quoted delimiters literal
for quote-free field contents, but drops quote characters, so a doubled
quote yields no character there. -/
theorem tabularReader_quoting :
    (∀ (f : Str) (fs : List Str), parseCSVLine (encodeLine (f :: fs)) = f :: fs) ∧
    (∀ (f : Str) (fs : List Str), (∃ g ∈ f :: fs, jsTrim g ≠ []) →
      parseCSV (encodeLine (f :: fs)) = [f :: fs]) ∧
    (∀ (f : Str) (fs : List Str), (∀ g ∈ f :: fs, '"' ∉ g) →
      splitCsvLine (encodeLine (f :: fs)) = f :: fs) ∧
    splitCsvLine "\"a\"\"b\",c".toList = ["ab".toList, "c".toList] := by
  refine ⟨?_, ?_, ?_, by decide⟩
  · intro f fs
    unfold parseCSVLine
    rw [parseCSVLineAux_encode fs f []]
    simp
  · intro f fs h
    unfold parseCSV
    rw [parseCSVAux_encode fs f [] []]
    have hnotall : ¬ (([] : Str) ++ f = [] ∧ fs = [] ∧ ([] : List Str) = []) := by
      rintro ⟨h1, h2, _⟩
      obtain ⟨g, hg, hgt⟩ := h
      simp only [List.nil_append] at h1
      subst h1 h2
      rw [List.mem_singleton] at hg
      subst hg
      exact hgt rfl
    rw [if_neg hnotall]
    have hany : (f :: fs).any (fun c => !(jsTrim c).isEmpty) = true := by
      obtain ⟨g, hg, hgt⟩ := h
      rw [List.any_eq_true]
      refine ⟨g, hg, ?_⟩
      simp [List.isEmpty_iff, hgt]
    simp [List.filter, hany]
  · intro f fs h
    unfold splitCsvLine
    rw [splitCsvLineAux_encode fs f [] h]
    simp

/-- Witness for the amended C9: the parseCSV round trip at a concrete
two-field record. -/
theorem tabularReader_quoting_witness :
    parseCSV (encodeLine ["ab".toList, "c".toList]) = [["ab".toList, "c".toList]] :=
  tabularReader_quoting.2.1 "ab".toList ["c".toList]
    ⟨"ab".toList, by decide, by decide⟩

/-! ### Station arrival index finalization (build_station_arrivals_by_destination,
src/unnamed/part_001 lines 330-340)

The accumulated index maps station to line to headsign to the pushed
arrival-time strings; finalization sorts each bucket with the default JS
sort (lexicographic string comparison) and truncates it to 120. The
invariant holds for any accumulated content, so the accumulation pass
itself needs no modelling here. -/

theorem strLe_trans (a : Str) : ∀ (b c : Str),
    strLe a b = true → strLe b c = true → strLe a c = true := by
  induction a with
  | nil => intro b c _ _; rfl
  | cons x as ih =>
    intro b c h1 h2
    cases b with
    | nil => simp [strLe] at h1
    | cons y bs =>
      cases c with
      | nil => simp [strLe] at h2
      | cons z cs =>
        simp only [strLe] at h1 h2 ⊢
        by_cases hxy : x < y
        · by_cases hyz : y < z
          · simp [lt_trans hxy hyz]
          · by_cases hzy : z < y
            · rw [if_neg hyz, if_pos hzy] at h2
              exact absurd h2 (by simp)
            · have heq : y = z := le_antisymm (not_lt.mp hzy) (not_lt.mp hyz)
              subst heq
              simp [hxy]
        · by_cases hyx : y < x
          · rw [if_neg hxy, if_pos hyx] at h1
            exact absurd h1 (by simp)
          · have heq : x = y := le_antisymm (not_lt.mp hyx) (not_lt.mp hxy)
            subst heq
            rw [if_neg (lt_irrefl x), if_neg (lt_irrefl x)] at h1
            by_cases hxz : x < z
            · simp [hxz]
            · by_cases hzx : z < x
              · rw [if_neg hxz, if_pos hzx] at h2
                exact absurd h2 (by simp)
              · rw [if_neg hxz, if_neg hzx] at h2 ⊢
                exact ih bs cs h1 h2

theorem strLe_total (a : Str) : ∀ (b : Str), (strLe a b || strLe b a) = true := by
  induction a with
  | nil => intro b; simp [strLe]
  | cons x as ih =>
    intro b
    cases b with
    | nil => simp [strLe]
    | cons y bs =>
      simp only [strLe]
      by_cases hxy : x < y
      · simp [hxy]
      · by_cases hyx : y < x
        · simp [hxy, hyx]
        · simpa [hxy, hyx] using ih bs

/-- Finalization of one station/line/headsign bucket: default JS sort
(lexicographic on strings) then truncation to the first 120. -/
def finalizeBucket (times : List Str) : List Str := (times.mergeSort strLe).take 120

/-- The nested station to line to headsign to times index. -/
abbrev StationArrivalIndex := List (Str × List (Str × List (Str × List Str)))

/-- Finalization pass of the arrivals builder: every bucket sorted and
truncated. -/
def finalizeIndex (idx : StationArrivalIndex) : StationArrivalIndex :=
  idx.map (fun st => (st.1, st.2.map (fun ln =>
    (ln.1, ln.2.map (fun hs => (hs.1, finalizeBucket hs.2))))))

/-- One finalized bucket is sorted ascending lexicographically and holds
at most 120 entries. -/
theorem finalizeBucket_invariant (times : List Str) :
    (finalizeBucket times).Pairwise (fun a b => strLe a b = true) ∧
      (finalizeBucket times).length ≤ 120 := by
  constructor
  · unfold finalizeBucket
    refine List.Pairwise.sublist (List.take_sublist 120 _) ?_
    exact List.sorted_mergeSort strLe_trans strLe_total times
  · unfold finalizeBucket
    exact List.length_take_le 120 _

/-- Claim C7: after ingestion finalization, every station/line/headsign
bucket of the index is sorted ascending in lexicographic string order and
contains at most 120 entries. -/
theorem stationArrivalIndex_invariant (idx : StationArrivalIndex) :
    ∀ st ∈ finalizeIndex idx, ∀ ln ∈ st.2, ∀ hs ∈ ln.2,
      hs.2.Pairwise (fun a b => strLe a b = true) ∧ hs.2.length ≤ 120 := by
  intro st hst ln hln hs hhs
  unfold finalizeIndex at hst
  rw [List.mem_map] at hst
  obtain ⟨st0, _, rfl⟩ := hst
  simp only at hln
  rw [List.mem_map] at hln
  obtain ⟨ln0, _, rfl⟩ := hln
  simp only at hhs
  rw [List.mem_map] at hhs
  obtain ⟨hs0, _, rfl⟩ := hhs
  exact finalizeBucket_invariant hs0.2

unseal List.merge List.mergeSort in
/-- Witness for C7 at a concrete one-station index with unsorted times. -/
theorem stationArrivalIndex_invariant_witness :
    (("25:10:00".toList : Str) :: ["07:59:00".toList]).Pairwise
        (fun a b => strLe a b = true) = False ∧
    ∀ hs ∈ [("Uptown".toList, finalizeBucket ["25:10:00".toList, "07:59:00".toList])],
      (hs.2 : List Str).Pairwise (fun a b => strLe a b = true) ∧ hs.2.length ≤ 120 := by
  constructor
  · simp only [eq_iff_iff, iff_false]
    intro hp
    have := List.rel_of_pairwise_cons hp (List.mem_singleton.mpr rfl)
    exact absurd this (by decide)
  · intro hs hhs
    have h := stationArrivalIndex_invariant
      [("ST1".toList, [("A".toList, [("Uptown".toList,
        ["25:10:00".toList, "07:59:00".toList])])])]
    have hmem := h ("ST1".toList, [("A".toList, [("Uptown".toList,
        finalizeBucket ["25:10:00".toList, "07:59:00".toList])])])
      (by simp [finalizeIndex, finalizeBucket])
    exact hmem ("A".toList, [("Uptown".toList,
        finalizeBucket ["25:10:00".toList, "07:59:00".toList])])
      (by simp) hs hhs

/-! ### JS Map model

A JS Map (or plain object used as a dictionary) is an association list in
insertion order: set updates the first matching key in place, else appends;
get returns the first match. -/

/-- Map.get: first value stored under the key. -/
def mapGet {κ β : Type} [DecidableEq κ] (m : List (κ × β)) (k : κ) : Option β :=
  (m.find? (fun p => decide (p.1 = k))).map (fun p => p.2)

/-- Map.set: replace the first binding of the key in place, else append. -/
def mapSet {κ β : Type} [DecidableEq κ] (m : List (κ × β)) (k : κ) (v : β) :
    List (κ × β) :=
  match m with
  | [] => [(k, v)]
  | p :: rest => if p.1 = k then (k, v) :: rest else p :: mapSet rest k v

theorem mapGet_nil {κ β : Type} [DecidableEq κ] (k : κ) :
    mapGet ([] : List (κ × β)) k = none := rfl

theorem mapGet_cons {κ β : Type} [DecidableEq κ] (p : κ × β) (m : List (κ × β)) (k : κ) :
    mapGet (p :: m) k = if p.1 = k then some p.2 else mapGet m k := by
  unfold mapGet
  by_cases hp : p.1 = k
  · rw [List.find?_cons_of_pos _ (by simp [hp]), if_pos hp]
    rfl
  · rw [List.find?_cons_of_neg _ (by simp [hp]), if_neg hp]

theorem mapGet_mapSet_self {κ β : Type} [DecidableEq κ] (m : List (κ × β)) (k : κ) (v : β) :
    mapGet (mapSet m k v) k = some v := by
  induction m with
  | nil => simp [mapSet, mapGet_cons]
  | cons p rest ih =>
    by_cases hp : p.1 = k
    · simp [mapSet, hp, mapGet_cons]
    · simp [mapSet, hp, mapGet_cons, ih]

theorem mapGet_mapSet_ne {κ β : Type} [DecidableEq κ] (m : List (κ × β)) (k k' : κ) (v : β)
    (h : k' ≠ k) : mapGet (mapSet m k v) k' = mapGet m k' := by
  induction m with
  | nil =>
    show mapGet [(k, v)] k' = mapGet [] k'
    have hne : ((k, v) : κ × β).1 ≠ k' := fun he => h he.symm
    rw [mapGet_cons, if_neg hne, mapGet_nil]
  | cons p rest ih =>
    by_cases hp : p.1 = k
    · have hset : mapSet (p :: rest) k v = (k, v) :: rest := by simp [mapSet, hp]
      have h1 : ((k, v) : κ × β).1 ≠ k' := fun he => h he.symm
      have h2 : p.1 ≠ k' := by rw [hp]; exact fun he => h he.symm
      rw [hset, mapGet_cons, mapGet_cons, if_neg h1, if_neg h2]
    · have hset : mapSet (p :: rest) k v = p :: mapSet rest k v := by simp [mapSet, hp]
      rw [hset, mapGet_cons, mapGet_cons, ih]

/-- Membership form of a successful lookup. -/
theorem mem_of_mapGet {κ β : Type} [DecidableEq κ] (m : List (κ × β)) (k : κ) (v : β)
    (h : mapGet m k = some v) : (k, v) ∈ m := by
  induction m with
  | nil => simp [mapGet_nil] at h
  | cons p rest ih =>
    rw [mapGet_cons] at h
    by_cases hp : p.1 = k
    · rw [if_pos hp] at h
      have hv : p.2 = v := Option.some.inj h
      have hpk : p = (k, v) := by
        obtain ⟨p1, p2⟩ := p
        simp only at hp hv
        rw [hp, hv]
      exact List.mem_cons.mpr (Or.inl hpk.symm)
    · rw [if_neg hp] at h
      exact List.mem_cons_of_mem _ (ih h)

/-- A fold of conditional map writes never creates a binding for a key no
processed row writes. -/
theorem foldl_mapSet_lookup_untouched {κ α β : Type} [DecidableEq κ]
    (step : List (κ × β) → α → List (κ × β)) (key : α → κ) (val : α → β)
    (guard : α → Prop) [DecidablePred guard]
    (hstep : ∀ m a, step m a = if guard a then mapSet m (key a) (val a) else m) :
    ∀ (l : List α) (m : List (κ × β)) (k : κ),
      (∀ a ∈ l, guard a → key a ≠ k) →
      mapGet (l.foldl step m) k = mapGet m k := by
  intro l
  induction l with
  | nil => intro m k _; rfl
  | cons a l' ih =>
    intro m k h
    rw [List.foldl_cons, hstep]
    by_cases hg : guard a
    · rw [if_pos hg, ih _ k (fun b hb => h b (List.mem_cons_of_mem a hb))]
      exact mapGet_mapSet_ne m (key a) k (val a)
        (fun he => h a (List.mem_cons_self a l') hg he.symm)
    · rw [if_neg hg]
      exact ih _ k (fun b hb => h b (List.mem_cons_of_mem a hb))

/-- A fold of conditional map writes binds the key of a processed row to
that row's value, when it is the only processed row that writes the key. -/
theorem foldl_mapSet_lookup_found {κ α β : Type} [DecidableEq κ]
    (step : List (κ × β) → α → List (κ × β)) (key : α → κ) (val : α → β)
    (guard : α → Prop) [DecidablePred guard]
    (hstep : ∀ m a, step m a = if guard a then mapSet m (key a) (val a) else m) :
    ∀ (l : List α) (m : List (κ × β)) (r : α), r ∈ l → guard r →
      (∀ r' ∈ l, guard r' → key r' = key r → r' = r) →
      mapGet (l.foldl step m) (key r) = some (val r) := by
  intro l
  induction l with
  | nil => intro m r hr; exact absurd hr (List.not_mem_nil r)
  | cons a l' ih =>
    intro m r hr hg huniq
    rw [List.foldl_cons, hstep]
    rcases List.mem_cons.mp hr with heq | hr'
    · rw [heq] at hg huniq ⊢
      rw [if_pos hg]
      by_cases hrest : ∃ x ∈ l', guard x ∧ key x = key a
      · obtain ⟨x, hx, hgx, hkx⟩ := hrest
        have hxa : x = a := huniq x (List.mem_cons_of_mem a hx) hgx hkx
        subst hxa
        exact ih _ x hx hg
          (fun b hb hgb hkb => huniq b (List.mem_cons_of_mem _ hb) hgb hkb)
      · push_neg at hrest
        rw [foldl_mapSet_lookup_untouched step key val guard hstep l' _ (key a) hrest]
        exact mapGet_mapSet_self m (key a) (val a)
    · have huniq' : ∀ b ∈ l', guard b → key b = key r → b = r :=
        fun b hb hgb hkb => huniq b (List.mem_cons_of_mem _ hb) hgb hkb
      by_cases hg' : guard a
      · rw [if_pos hg']
        exact ih _ r hr' hg huniq'
      · rw [if_neg hg']
        exact ih _ r hr' hg huniq'

/-! ### Route-name maps of the three batch builders -/

/-- One route row (route_id, route_short_name as read from routes.txt). -/
structure RouteRow where
  route_id : Str
  route_short_name : Str
deriving DecidableEq, Repr

/-- routeIdToLine of the arrivals builder (src/unnamed/part_001, lines
287-293): maps a route id to the uppercased trimmed short name, only when
both the id and the trimmed short name are nonempty; a blank-name row is
dropped. -/
def routeIdToLine (routes : List RouteRow) : List (Str × Str) :=
  routes.foldl (fun m r =>
    if r.route_id ≠ [] ∧ jsTrim r.route_short_name ≠ [] then
      mapSet m r.route_id (jsToUpper (jsTrim r.route_short_name))
    else m) []

/-- routeIdToShort of scripts/build_station_to_lines.mjs (lines 77-81):
the same logic as routeIdToLine. -/
def routeIdToShortSTL (routes : List RouteRow) : List (Str × Str) :=
  routes.foldl (fun m r =>
    if r.route_id ≠ [] ∧ jsTrim r.route_short_name ≠ [] then
      mapSet m r.route_id (jsToUpper (jsTrim r.route_short_name))
    else m) []

/-- One route row of build_gtfs_json.js, which also reads route_type; an
absent field is none. -/
structure GJRouteRow where
  route_id : Str
  route_short_name : Str
  route_type : Option Str
deriving DecidableEq, Repr

/-- subwayRoutes of build_gtfs_json.js: when any row carries a route_type,
keep only the rows whose route_type is the string 1. -/
def subwayRoutes (routes : List GJRouteRow) : List GJRouteRow :=
  if routes.any (fun r => r.route_type.isSome) then
    routes.filter (fun r =>
      match r.route_type with
      | some t => decide (t = "1".toList)
      | none => false)
  else routes

/-- routeIdToShort of build_gtfs_json.js (src/unnamed/part_001, lines
135-146): over the subway-filtered rows, map id to trimmed short name,
falling back to the id when blank; every filtered row is mapped. -/
def routeIdToShortGJ (routes : List GJRouteRow) : List (Str × Str) :=
  (subwayRoutes routes).foldl (fun m r =>
    mapSet m r.route_id
      (if jsTrim r.route_short_name = [] then r.route_id else jsTrim r.route_short_name)) []

/-- routeIdToShort of build_route_shapes.mjs (src/src/App.jsx lines
1028-1033): map id to short-or-id whenever the id is nonempty. -/
def routeIdToShortRS (routes : List RouteRow) : List (Str × Str) :=
  routes.foldl (fun m r =>
    if r.route_id ≠ [] then
      mapSet m r.route_id
        (if jsTrim r.route_short_name = [] then r.route_id else jsTrim r.route_short_name)
    else m) []

/-- Counterexample to claim C8 as stated: the arrivals builder's
routeIdToLine drops a route row whose trimmed short name is blank instead
of falling back to the route id, so the row X1 is missing from the
mapping. -/
theorem routeName_resolution_counterexample :
    mapGet (routeIdToLine [⟨"X1".toList, " ".toList⟩]) "X1".toList = none ∧
    jsTrim " ".toList = [] ∧
    mapGet (routeIdToShortSTL [⟨"X1".toList, " ".toList⟩]) "X1".toList = none := by
  refine ⟨by decide, by decide, by decide⟩

/-- Claim C8, amended: the build_gtfs_json and build_route_shapes route
maps map every (subway-filtered, respectively nonempty-id) route row to
its trimmed short name with the id as fallback when blank; the arrivals
and station-to-lines builders instead store the uppercased trimmed name
and drop any row whose trimmed short name is blank. Row ids are assumed
unambiguous, as in a well-formed feed. -/
theorem routeName_resolution :
    (∀ (routes : List GJRouteRow) (r : GJRouteRow), r ∈ subwayRoutes routes →
      (∀ x ∈ subwayRoutes routes, x.route_id = r.route_id → x = r) →
      mapGet (routeIdToShortGJ routes) r.route_id =
        some (if jsTrim r.route_short_name = [] then r.route_id
          else jsTrim r.route_short_name)) ∧
    (∀ (routes : List RouteRow) (r : RouteRow), r ∈ routes → r.route_id ≠ [] →
      (∀ x ∈ routes, x.route_id ≠ [] → x.route_id = r.route_id → x = r) →
      mapGet (routeIdToShortRS routes) r.route_id =
        some (if jsTrim r.route_short_name = [] then r.route_id
          else jsTrim r.route_short_name)) ∧
    (∀ (routes : List RouteRow) (r : RouteRow), r ∈ routes → r.route_id ≠ [] →
      jsTrim r.route_short_name ≠ [] →
      (∀ x ∈ routes, x.route_id ≠ [] ∧ jsTrim x.route_short_name ≠ [] →
        x.route_id = r.route_id → x = r) →
      mapGet (routeIdToLine routes) r.route_id =
        some (jsToUpper (jsTrim r.route_short_name))) ∧
    (∀ (routes : List RouteRow) (k : Str),
      (∀ x ∈ routes, x.route_id = k → jsTrim x.route_short_name = []) →
      mapGet (routeIdToLine routes) k = none ∧
      mapGet (routeIdToShortSTL routes) k = none) := by
  have hstepLine : ∀ (m : List (Str × Str)) (a : RouteRow),
      (if a.route_id ≠ [] ∧ jsTrim a.route_short_name ≠ [] then
        mapSet m a.route_id (jsToUpper (jsTrim a.route_short_name)) else m) =
      if a.route_id ≠ [] ∧ jsTrim a.route_short_name ≠ [] then
        mapSet m a.route_id (jsToUpper (jsTrim a.route_short_name)) else m := by
    intro m a
    by_cases h : a.route_id ≠ [] ∧ jsTrim a.route_short_name ≠ [] <;> simp [h]
  refine ⟨?_, ?_, ?_, ?_⟩
  · intro routes r hr huniq
    unfold routeIdToShortGJ
    exact foldl_mapSet_lookup_found
      (fun m r => mapSet m r.route_id
        (if jsTrim r.route_short_name = [] then r.route_id else jsTrim r.route_short_name))
      (fun r => r.route_id)
      (fun r => if jsTrim r.route_short_name = [] then r.route_id
        else jsTrim r.route_short_name)
      (fun _ => True) (fun m a => (if_pos trivial).symm) (subwayRoutes routes) [] r hr
      trivial (fun b hb _ hkb => huniq b hb hkb)
  · intro routes r hr hid huniq
    unfold routeIdToShortRS
    refine foldl_mapSet_lookup_found
      (fun m r => if r.route_id ≠ [] then
        mapSet m r.route_id
          (if jsTrim r.route_short_name = [] then r.route_id else jsTrim r.route_short_name)
        else m)
      (fun r => r.route_id)
      (fun r => if jsTrim r.route_short_name = [] then r.route_id
        else jsTrim r.route_short_name)
      (fun r => r.route_id ≠ []) ?_ routes [] r hr hid
      (fun b hb hgb hkb => huniq b hb hgb hkb)
    intro m a
    by_cases h : a.route_id ≠ [] <;> simp [h]
  · intro routes r hr hid hshort huniq
    unfold routeIdToLine
    refine foldl_mapSet_lookup_found
      (fun m r => if r.route_id ≠ [] ∧ jsTrim r.route_short_name ≠ [] then
        mapSet m r.route_id (jsToUpper (jsTrim r.route_short_name)) else m)
      (fun r => r.route_id)
      (fun r => jsToUpper (jsTrim r.route_short_name))
      (fun r => r.route_id ≠ [] ∧ jsTrim r.route_short_name ≠ [])
      hstepLine routes [] r hr ⟨hid, hshort⟩
      (fun b hb hgb hkb => huniq b hb hgb hkb)
  · intro routes k hblank
    constructor
    · unfold routeIdToLine
      rw [foldl_mapSet_lookup_untouched
        (fun m r => if r.route_id ≠ [] ∧ jsTrim r.route_short_name ≠ [] then
          mapSet m r.route_id (jsToUpper (jsTrim r.route_short_name)) else m)
        (fun r => r.route_id)
        (fun r => jsToUpper (jsTrim r.route_short_name))
        (fun r => r.route_id ≠ [] ∧ jsTrim r.route_short_name ≠ [])
        hstepLine routes [] k
        (fun b hb hgb hkb => hgb.2 (hblank b hb hkb))]
      rfl
    · unfold routeIdToShortSTL
      rw [foldl_mapSet_lookup_untouched
        (fun m r => if r.route_id ≠ [] ∧ jsTrim r.route_short_name ≠ [] then
          mapSet m r.route_id (jsToUpper (jsTrim r.route_short_name)) else m)
        (fun r => r.route_id)
        (fun r => jsToUpper (jsTrim r.route_short_name))
        (fun r => r.route_id ≠ [] ∧ jsTrim r.route_short_name ≠ [])
        hstepLine routes [] k
        (fun b hb hgb hkb => hgb.2 (hblank b hb hkb))]
      rfl

/-- Witness for the amended C8 at concrete rows: the fallback case of the
build_gtfs_json map and the uppercase case of routeIdToLine. -/
theorem routeName_resolution_witness :
    mapGet (routeIdToShortGJ [⟨"X1".toList, " ".toList, none⟩]) "X1".toList =
      some "X1".toList ∧
    mapGet (routeIdToLine [⟨"R9".toList, " j ".toList⟩]) "R9".toList =
      some "J".toList := by
  constructor
  · have h := routeName_resolution.1 [⟨"X1".toList, " ".toList, none⟩]
      ⟨"X1".toList, " ".toList, none⟩ (by decide)
      (by intro x hx _; exact List.mem_singleton.mp hx)
    rw [h]
    decide
  · have h := routeName_resolution.2.2.1 [⟨"R9".toList, " j ".toList⟩]
      ⟨"R9".toList, " j ".toList⟩ (by decide) (by decide) (by decide)
      (by intro x hx _ _; exact List.mem_singleton.mp hx)
    rw [h]
    decide

/-! ### Route shape selection (build_route_shapes.mjs, in the src/src/App.jsx
concatenation, lines 1035-1126)

The source keys its maps with the joined strings route|dir|shape and
route|dir; ids of a well-formed feed contain no pipe, so the join is
injective and the keys are modelled as tuples. -/

/-- One trip row (trips.txt fields used by the shape selector). -/
structure TripRow where
  route_id : Str
  shape_id : Str
  direction_id : Str
deriving DecidableEq, Repr

/-- The direction component of a trip's key: the trimmed direction_id,
defaulting to 0 when blank or missing. -/
def tripDir (t : TripRow) : Str :=
  if jsTrim t.direction_id = [] then "0".toList else jsTrim t.direction_id

/-- Trip counts per (route_id, direction, shape_id), in first-seen order;
rows with a blank route or shape id are skipped. -/
def shapeCounts (trips : List TripRow) : List ((Str × Str × Str) × Nat) :=
  trips.foldl (fun m t =>
    if t.route_id ≠ [] ∧ t.shape_id ≠ [] then
      mapSet m (t.route_id, tripDir t, t.shape_id)
        ((mapGet m (t.route_id, tripDir t, t.shape_id)).getD 0 + 1)
    else m) []

/-- The best shape per (route_id, direction): the first-encountered shape
of maximal trip count (a later shape replaces only on a strictly greater
count). -/
def bestShapeByRouteDir (trips : List TripRow) : List ((Str × Str) × (Str × Nat)) :=
  (shapeCounts trips).foldl (fun best kc =>
    match mapGet best (kc.1.1, kc.1.2.1) with
    | some e => if kc.2 > e.2 then mapSet best (kc.1.1, kc.1.2.1) (kc.1.2.2, kc.2) else best
    | none => mapSet best (kc.1.1, kc.1.2.1) (kc.1.2.2, kc.2)) []

/-- The shape ids selected for some group. -/
def chosenShapeIds (trips : List TripRow) : List Str :=
  (bestShapeByRouteDir trips).map (fun p => p.2.1)

/-- One shape point row (shapes.txt); a missing or non-numeric field is
none. -/
structure ShapeRow where
  shape_id : Str
  shape_pt_lat : Option ℚ
  shape_pt_lon : Option ℚ
  shape_pt_sequence : Option ℚ
deriving DecidableEq, Repr

/-- Accumulated (sequence, lat, lon) points per chosen shape id, in file
order; rows of non-chosen shapes or with a non-finite field are skipped. -/
def shapePointsRaw (trips : List TripRow) (shapes : List ShapeRow) :
    List (Str × List (ℚ × ℚ × ℚ)) :=
  shapes.foldl (fun m s =>
    if s.shape_id ≠ [] ∧ (chosenShapeIds trips).any (fun c => decide (c = s.shape_id)) then
      match s.shape_pt_lat, s.shape_pt_lon, s.shape_pt_sequence with
      | some la, some lo, some sq =>
        mapSet m s.shape_id ((mapGet m s.shape_id).getD [] ++ [(sq, la, lo)])
      | _, _, _ => m
    else m) []

/-- The per-shape points sorted by sequence number. -/
def shapePoints (trips : List TripRow) (shapes : List ShapeRow) :
    List (Str × List (ℚ × ℚ × ℚ)) :=
  (shapePointsRaw trips shapes).map
    (fun p => (p.1, p.2.mergeSort (fun a b => decide (a.1 ≤ b.1))))

/-- One emitted GeoJSON feature of route_shapes.json. -/
structure RouteShapeFeature where
  route_id : Str
  route_short_name : Str
  direction_id : Str
  shape_id : Str
  color : Str
  trips_sampled : Nat
  coordinates : List (ℚ × ℚ)
deriving DecidableEq, Repr

/-- The fixed line-to-color palette of build_route_shapes.mjs. -/
def LINE_COLORS : List (Str × Str) :=
  [("1".toList, "#EE352E".toList), ("2".toList, "#EE352E".toList),
   ("3".toList, "#EE352E".toList), ("4".toList, "#00933C".toList),
   ("5".toList, "#00933C".toList), ("6".toList, "#00933C".toList),
   ("7".toList, "#B933AD".toList), ("A".toList, "#0039A6".toList),
   ("C".toList, "#0039A6".toList), ("E".toList, "#0039A6".toList),
   ("B".toList, "#FF6319".toList), ("D".toList, "#FF6319".toList),
   ("F".toList, "#FF6319".toList), ("M".toList, "#FF6319".toList),
   ("N".toList, "#FCCC0A".toList), ("Q".toList, "#FCCC0A".toList),
   ("R".toList, "#FCCC0A".toList), ("W".toList, "#FCCC0A".toList),
   ("J".toList, "#996633".toList), ("Z".toList, "#996633".toList),
   ("L".toList, "#A7A9AC".toList), ("S".toList, "#808183".toList)]

/-- The feature loop: one candidate per best-shape entry, skipped when the
selected shape has fewer than 2 surviving points. -/
def buildFeatures (routes : List RouteRow) (trips : List TripRow)
    (shapes : List ShapeRow) : List RouteShapeFeature :=
  (bestShapeByRouteDir trips).filterMap (fun p =>
    let pts := (mapGet (shapePoints trips shapes) p.2.1).getD []
    if pts.length < 2 then none
    else
      let short := jsTrim ((mapGet (routeIdToShortRS routes) p.1.1).getD p.1.1)
      some ⟨p.1.1, short, p.1.2, p.2.1,
        (mapGet LINE_COLORS (jsToUpper short)).getD "#999999".toList,
        p.2.2, pts.map (fun q => (q.2.2, q.2.1))⟩)

/-- JS Number of a direction string, for the canonical digit directions. -/
def dirNumber (d : Str) : ℚ := ((parseIntOpt d).getD 0 : ℚ)

/-- The final feature ordering: by short name, then numeric direction. -/
def featLe (a b : RouteShapeFeature) : Bool :=
  if strLt a.route_short_name b.route_short_name then true
  else if strLt b.route_short_name a.route_short_name then false
  else decide (dirNumber a.direction_id ≤ dirNumber b.direction_id)

/-- The emitted feature collection of build_route_shapes.mjs. -/
def features (routes : List RouteRow) (trips : List TripRow)
    (shapes : List ShapeRow) : List RouteShapeFeature :=
  (buildFeatures routes trips shapes).mergeSort featLe

theorem mapSet_keys_mem {κ β : Type} [DecidableEq κ] (m : List (κ × β)) (k : κ) (v : β)
    (x : κ) : x ∈ (mapSet m k v).map Prod.fst ↔ x ∈ m.map Prod.fst ∨ x = k := by
  induction m with
  | nil =>
    simp [mapSet]
  | cons p rest ih =>
    by_cases hp : p.1 = k
    · have hset : mapSet (p :: rest) k v = (k, v) :: rest := by simp [mapSet, hp]
      rw [hset]
      simp only [List.map_cons, List.mem_cons]
      rw [hp]
      tauto
    · have hset : mapSet (p :: rest) k v = p :: mapSet rest k v := by simp [mapSet, hp]
      rw [hset]
      simp only [List.map_cons, List.mem_cons, ih]
      tauto

theorem mapSet_keys_nodup {κ β : Type} [DecidableEq κ] (m : List (κ × β)) (k : κ) (v : β)
    (h : (m.map Prod.fst).Nodup) : ((mapSet m k v).map Prod.fst).Nodup := by
  induction m with
  | nil => simp [mapSet]
  | cons p rest ih =>
    rw [List.map_cons, List.nodup_cons] at h
    by_cases hp : p.1 = k
    · have hset : mapSet (p :: rest) k v = (k, v) :: rest := by simp [mapSet, hp]
      rw [hset, List.map_cons, List.nodup_cons]
      exact ⟨hp ▸ h.1, h.2⟩
    · have hset : mapSet (p :: rest) k v = p :: mapSet rest k v := by simp [mapSet, hp]
      rw [hset, List.map_cons, List.nodup_cons]
      refine ⟨?_, ih h.2⟩
      rw [mapSet_keys_mem]
      rintro (hmem | heq)
      · exact h.1 hmem
      · exact hp heq

/-- The best-shape fold preserves distinctness of its (route, dir) keys. -/
theorem bestShape_fold_nodup :
    ∀ (l : List ((Str × Str × Str) × Nat)) (m : List ((Str × Str) × (Str × Nat))),
    (m.map Prod.fst).Nodup →
    ((l.foldl (fun best kc =>
      match mapGet best (kc.1.1, kc.1.2.1) with
      | some e => if kc.2 > e.2 then mapSet best (kc.1.1, kc.1.2.1) (kc.1.2.2, kc.2) else best
      | none => mapSet best (kc.1.1, kc.1.2.1) (kc.1.2.2, kc.2)) m).map Prod.fst).Nodup := by
  intro l
  induction l with
  | nil => intro m hm; exact hm
  | cons a l' ih =>
    intro m hm
    rw [List.foldl_cons]
    refine ih _ ?_
    show ((match mapGet m (a.1.1, a.1.2.1) with
      | some e => if a.2 > e.2 then mapSet m (a.1.1, a.1.2.1) (a.1.2.2, a.2) else m
      | none => mapSet m (a.1.1, a.1.2.1) (a.1.2.2, a.2)).map Prod.fst).Nodup
    cases hg : mapGet m (a.1.1, a.1.2.1) with
    | none => exact mapSet_keys_nodup _ _ _ hm
    | some e =>
      dsimp only
      by_cases hc : a.2 > e.2
      · rw [if_pos hc]
        exact mapSet_keys_nodup _ _ _ hm
      · rw [if_neg hc]
        exact hm

/-- The (route, dir) keys of the best-shape map are pairwise distinct. -/
theorem bestShape_keys_nodup (trips : List TripRow) :
    ((bestShapeByRouteDir trips).map Prod.fst).Nodup := by
  unfold bestShapeByRouteDir
  exact bestShape_fold_nodup (shapeCounts trips) [] (by simp)

theorem nodup_countP_eq_le_one {α : Type} [DecidableEq α] (l : List α) (h : l.Nodup)
    (k : α) : l.countP (fun x => decide (x = k)) ≤ 1 := by
  induction l with
  | nil => simp
  | cons a l ih =>
    rw [List.nodup_cons] at h
    rw [List.countP_cons]
    by_cases ha : a = k
    · have hz : l.countP (fun x => decide (x = k)) = 0 := by
        rw [List.countP_eq_zero]
        intro x hx
        simp only [decide_eq_true_eq]
        intro he
        rw [he, ← ha] at hx
        exact h.1 hx
      simp [ha, hz]
    · simp only [ha, decide_False, ite_false, Nat.add_zero, if_neg ha]
      simpa using ih h.2

/-- At most one feature carries a given (route_id, direction) pair. -/
theorem features_countP_le_one (routes : List RouteRow) (trips : List TripRow)
    (shapes : List ShapeRow) (r d : Str) :
    (features routes trips shapes).countP
      (fun f => decide (f.route_id = r) && decide (f.direction_id = d)) ≤ 1 := by
  unfold features
  rw [(List.mergeSort_perm _ _).countP_eq]
  unfold buildFeatures
  rw [List.countP_filterMap]
  have hone : (bestShapeByRouteDir trips).countP (fun p => decide (p.1 = (r, d))) ≤ 1 := by
    have hk := nodup_countP_eq_le_one _ (bestShape_keys_nodup trips) (r, d)
    rw [List.countP_map] at hk
    refine le_trans (le_of_eq (List.countP_congr ?_)) hk
    intro p _
    simp [Function.comp]
  refine le_trans (List.countP_mono_left ?_) hone
  intro p _ hp
  by_cases hlen : ((mapGet (shapePoints trips shapes) p.2.1).getD []).length < 2
  · simp [hlen] at hp
  · simp only [hlen, ite_false, if_neg hlen, Option.map_some', Option.getD_some,
      Bool.and_eq_true, decide_eq_true_eq] at hp
    simp [Prod.ext_iff, hp.1, hp.2]

/-- When the selected best shape of a (route, dir) group survives the
two-point check, exactly one feature is emitted for the group. -/
theorem features_countP_found (routes : List RouteRow) (trips : List TripRow)
    (shapes : List ShapeRow) (r d s : Str) (c : Nat)
    (hbest : mapGet (bestShapeByRouteDir trips) (r, d) = some (s, c))
    (hpts : 2 ≤ ((mapGet (shapePoints trips shapes) s).getD []).length) :
    (features routes trips shapes).countP
      (fun f => decide (f.route_id = r) && decide (f.direction_id = d)) = 1 := by
  refine le_antisymm (features_countP_le_one routes trips shapes r d) ?_
  unfold features
  rw [(List.mergeSort_perm _ _).countP_eq]
  unfold buildFeatures
  rw [List.countP_filterMap]
  refine Nat.succ_le_of_lt (List.countP_pos_iff.mpr ?_)
  refine ⟨((r, d), (s, c)), mem_of_mapGet _ _ _ hbest, ?_⟩
  have hnl : ¬ ((mapGet (shapePoints trips shapes) s).getD []).length < 2 := by omega
  simp [hnl]

/-- Trips of a (route R, direction 0) group whose most-frequent shape S1 is
degenerate (one point) while the also-referenced shape S2 has two valid
points. -/
def tripsDegenerateBest : List TripRow :=
  [⟨"R".toList, "S1".toList, "0".toList⟩, ⟨"R".toList, "S1".toList, "0".toList⟩,
   ⟨"R".toList, "S2".toList, "0".toList⟩]

/-- Shape rows for tripsDegenerateBest: one valid point for S1, two for
S2. -/
def shapesDegenerateBest : List ShapeRow :=
  [⟨"S1".toList, some 0, some 0, some 0⟩, ⟨"S2".toList, some 0, some 0, some 0⟩,
   ⟨"S2".toList, some 1, some 1, some 1⟩]

unseal List.merge List.mergeSort in
/-- Counterexample to claim C4 as stated: the (R, 0) group has trips and a
referenced shape (S2) with 2 valid points, yet zero features are emitted,
because the selector picks the most-frequent shape S1, which has only one
point, and then discards the whole group. -/
theorem shapeSelection_totality_counterexample :
    1 ≤ tripsDegenerateBest.countP
      (fun t => decide (t.route_id = "R".toList) && decide (tripDir t = "0".toList)) ∧
    (⟨"R".toList, "S2".toList, "0".toList⟩ : TripRow) ∈ tripsDegenerateBest ∧
    2 ≤ shapesDegenerateBest.countP
      (fun s => decide (s.shape_id = "S2".toList) && s.shape_pt_lat.isSome &&
        s.shape_pt_lon.isSome && s.shape_pt_sequence.isSome) ∧
    features [] tripsDegenerateBest shapesDegenerateBest = [] := by
  refine ⟨by decide, by decide, by decide, by decide⟩

/-- Claim C4, amended: for every (route_id, direction_id) pair at most one
RouteShapeFeature is emitted, and exactly one is emitted when the group's
selected shape (the first-seen shape of maximal trip count) has at least 2
valid points; a group whose selected shape is degenerate is discarded even
if another of its shapes has enough points. -/
theorem shapeSelection_totality :
    (∀ (routes : List RouteRow) (trips : List TripRow) (shapes : List ShapeRow) (r d : Str),
      (features routes trips shapes).countP
        (fun f => decide (f.route_id = r) && decide (f.direction_id = d)) ≤ 1) ∧
    (∀ (routes : List RouteRow) (trips : List TripRow) (shapes : List ShapeRow)
      (r d s : Str) (c : Nat),
      mapGet (bestShapeByRouteDir trips) (r, d) = some (s, c) →
      2 ≤ ((mapGet (shapePoints trips shapes) s).getD []).length →
      (features routes trips shapes).countP
        (fun f => decide (f.route_id = r) && decide (f.direction_id = d)) = 1) :=
  ⟨features_countP_le_one, features_countP_found⟩

unseal List.merge List.mergeSort in
/-- Witness for the amended C4 at a one-trip, two-point feed. -/
theorem shapeSelection_totality_witness :
    (features [] [⟨"R".toList, "S2".toList, "0".toList⟩]
      [⟨"S2".toList, some 0, some 0, some 0⟩, ⟨"S2".toList, some 1, some 1, some 1⟩]).countP
      (fun f => decide (f.route_id = "R".toList) && decide (f.direction_id = "0".toList)) = 1 :=
  shapeSelection_totality.2 [] [⟨"R".toList, "S2".toList, "0".toList⟩]
    [⟨"S2".toList, some 0, some 0, some 0⟩, ⟨"S2".toList, some 1, some 1, some 1⟩]
    "R".toList "0".toList "S2".toList 1 (by decide) (by decide)

end NearbyTransit


